import Mathlib

/-!
# Metronome (Pebble watch app) : tap-tempo estimator and tick scheduler

A shallow embedding of `src/metronome.c`.

* The C globals become the fields of `State`.  The `int` globals are `Int`,
  the `uint32_t` samples are `Nat` (every arithmetic step on them is reduced
  modulo `2^32`, the value returned through `uint16_t` modulo `2^16`).
* A C function that can trap returns `Except Fault _`: an integer division
  by zero is `Fault.divByZero`, an access outside the `tempo_times` array is
  `Fault.outOfBounds`.
* The host (Pebble SDK) is not part of the program.  Of the host only the
  timer service is modelled: `State.timers` is the list of the delays (ms) of
  the timers registered with `app_timer_register` that have not fired yet,
  and the clock reading of `time_ms` is an argument of the tap handler.
  Drawing and text-layer calls have no effect on the program's variables and
  are left out.
-/

namespace Metronome

set_option maxRecDepth 8000

/-! ## Constants and machine arithmetic -/

/-- Capacity of the sample history: `#define MAX_CLICKS 5`. -/
def MAX_CLICKS : Nat := 5

/-- Upper bound of the up button: `#define MAX_TEMPO 500`. -/
def MAX_TEMPO : Int := 500

/-- Lower bound of the down button: `#define MIN_TEMPO 10`. -/
def MIN_TEMPO : Int := 10

/-- Number of values of `uint32_t`. -/
def U32 : Nat := 4294967296

/-- Number of values of `uint16_t`. -/
def U16 : Nat := 65536

/-- The ways a run of the program can trap. -/
inductive Fault where
  | divByZero
  | outOfBounds
  deriving DecidableEq, Repr

/-- Conversion of an `int` to `uint32_t` (reduction modulo `2^32`). -/
def toU32 (i : Int) : Nat := (i % (U32 : Int)).toNat

/-- Subtraction of two `uint32_t` values: `a - b` modulo `2^32`. -/
def sub32 (a b : Nat) : Nat := (a % U32 + (U32 - b % U32)) % U32

/-- Unsigned division, trapping on a zero divisor. -/
def udiv (a b : Nat) : Except Fault Nat :=
  if b = 0 then .error .divByZero else .ok (a / b)

/-- Signed `int` division (C truncates towards zero), trapping on a zero divisor. -/
def sdiv (a b : Int) : Except Fault Int :=
  if b = 0 then .error .divByZero else .ok (Int.tdiv a b)

/-- Read `a[i]` of the array `a`, trapping outside its bounds. -/
def rd (a : List Nat) (i : Int) : Except Fault Nat :=
  if 0 ≤ i ∧ i.toNat < a.length then .ok (a.getD i.toNat 0) else .error .outOfBounds

/-- Write `a[i] = v` of the array `a`, trapping outside its bounds. -/
def wr (a : List Nat) (i : Int) (v : Nat) : Except Fault (List Nat) :=
  if 0 ≤ i ∧ i.toNat < a.length then .ok (a.set i.toNat v) else .error .outOfBounds

/-! ## Program state -/

/-- The globals of `metronome.c`, and the host's pending tick timers. -/
structure State where
  /-- Global `static int metro_running = 1;` -/
  metro_running : Int
  /-- Global `static int metro_bpm = 60;` -/
  metro_bpm : Int
  /-- Global `static int metro_tock = 0;` -/
  metro_tock : Int
  /-- Global `static int tempo_clicks = 0;` -/
  tempo_clicks : Int
  /-- Global `static uint32_t tempo_times[MAX_CLICKS];` -/
  tempo_times : List Nat
  /-- Global `static int tempo_bpm = 0;` -/
  tempo_bpm : Int
  /-- Host: delays (ms) of the registered timers that have not fired yet,
  in registration order. -/
  timers : List Nat
  deriving DecidableEq, Repr

/-- The state after static initialisation and `init()`: no timer is registered. -/
def init : State :=
  { metro_running := 1, metro_bpm := 60, metro_tock := 0,
    tempo_clicks := 0, tempo_times := List.replicate MAX_CLICKS 0, tempo_bpm := 0,
    timers := [] }

/-! ## Tempo -/

/-- One round of the loop body `tempo_times[i] = tempo_times[i+1];`. -/
def shuffle_body (a : List Nat) (i : Nat) : Except Fault (List Nat) :=
  match rd a ((i : Int) + 1) with
  | .error f => .error f
  | .ok v => wr a (i : Int) v

/-- The loop `for (int i = 0; i < MAX_CLICKS - 1; i++) tempo_times[i] = tempo_times[i+1];`
started at index `i` with `n` rounds left. -/
def shuffle_loop (a : List Nat) (i : Nat) : Nat → Except Fault (List Nat)
  | 0 => .ok a
  | n + 1 =>
    match shuffle_body a i with
    | .error f => .error f
    | .ok a1 => shuffle_loop a1 (i + 1) n

/-- Function `static uint16_t add_click(uint32_t t)`: the returned interval and the new state. -/
def add_click (s : State) (t : Nat) : Except Fault (Nat × State) :=
  -- if (MAX_CLICKS == tempo_clicks) { shuffle } else { tempo_clicks++; }
  let s1 : Except Fault State :=
    if (MAX_CLICKS : Int) = s.tempo_clicks then
      match shuffle_loop s.tempo_times 0 (MAX_CLICKS - 1) with
      | .error f => .error f
      | .ok a => .ok { s with tempo_times := a }
    else
      .ok { s with tempo_clicks := s.tempo_clicks + 1 }
  match s1 with
  | .error f => .error f
  | .ok s1 =>
    -- tempo_times[tempo_clicks - 1] = t;
    match wr s1.tempo_times (s1.tempo_clicks - 1) t with
    | .error f => .error f
    | .ok a =>
      let s2 : State := { s1 with tempo_times := a }
      -- if (tempo_clicks < 2) return 0;
      if s2.tempo_clicks < 2 then
        .ok (0, s2)
      else
        -- return (t - tempo_times[0]) / (tempo_clicks - 1);
        match rd s2.tempo_times 0 with
        | .error f => .error f
        | .ok t0 =>
          match udiv (sub32 t t0) (toU32 (s2.tempo_clicks - 1)) with
          | .error f => .error f
          | .ok q => .ok (q % U16, s2)

/-- Handler `tempo_single_click_handler`: `seconds` and `millis` are what `time_ms` reports;
the sum `seconds * 1000 + millis` is stored in the `uint32_t normal_millis`, that is,
reduced modulo `2^32`, and the `uint16_t diff` is promoted to `int` for `60000 / diff`. -/
def tempo_single_click_handler (s : State) (seconds millis : Nat) : Except Fault State :=
  -- normal_millis = (seconds * 1000) + millis;
  let normal_millis : Nat := (seconds * 1000 + millis) % U32
  -- diff = add_click(normal_millis);
  match add_click s normal_millis with
  | .error f => .error f
  | .ok (diff, s1) =>
    if diff = 0 then
      .ok s1
    else
      -- tempo_bpm = 60000 / diff;
      match sdiv 60000 (diff : Int) with
      | .error f => .error f
      | .ok b => .ok { s1 with tempo_bpm := b }

/-- Handler `handle_tempo_disappear`: the tempo window is left. -/
def handle_tempo_disappear (s : State) : State :=
  let s1 : State := { s with tempo_clicks := 0 }
  if s1.tempo_bpm > 0 then { s1 with metro_bpm := s1.tempo_bpm } else s1

/-! ## Metro -/

/-- Host: `app_timer_register(timeout_ms, ...)` adds one pending timer. -/
def app_timer_register (s : State) (timeout_ms : Nat) : State :=
  { s with timers := s.timers ++ [timeout_ms] }

/-- Function `schedule_tick`: `app_timer_register(60000 / metro_bpm, &handle_tick_timer, NULL);` -/
def schedule_tick (s : State) : Except Fault State :=
  match sdiv 60000 s.metro_bpm with
  | .error f => .error f
  | .ok d => .ok (app_timer_register s (toU32 d))

/-- Callback `handle_tick_timer`: the callback of a tick timer. -/
def handle_tick_timer (s : State) : Except Fault State :=
  -- metro_tock = metro_tock == 0 ? 1 : 0;
  let s1 : State := { s with metro_tock := if s.metro_tock = 0 then 1 else 0 }
  -- if (metro_running) schedule_tick();
  if s1.metro_running ≠ 0 then schedule_tick s1 else .ok s1

/-- Handler `metro_select_single_click_handler`: stop, and open the tempo window. -/
def metro_select_single_click_handler (s : State) : State :=
  { s with metro_running := 0 }

/-- Handler `metro_up_single_click_handler`. -/
def metro_up_single_click_handler (s : State) : State :=
  if s.metro_bpm < MAX_TEMPO then { s with metro_bpm := s.metro_bpm + 1 } else s

/-- Handler `metro_down_single_click_handler`. -/
def metro_down_single_click_handler (s : State) : State :=
  if s.metro_bpm > MIN_TEMPO then { s with metro_bpm := s.metro_bpm - 1 } else s

/-- Handler `handle_metro_appear`: the metronome window comes to the front. -/
def handle_metro_appear (s : State) : Except Fault State :=
  schedule_tick { s with metro_running := 1 }

/-! ## The host's event loop -/

/-- The events the host delivers to the program. -/
inductive Event where
  /-- The metronome window appears: `handle_metro_appear`. -/
  | start
  /-- The pending timer at position `k` elapses: `handle_tick_timer`. -/
  | fire (k : Nat)
  /-- Select button: `metro_select_single_click_handler`. -/
  | select
  /-- Down button in the tempo window at clock reading `seconds`, `millis`. -/
  | tap (seconds millis : Nat)
  /-- The tempo window disappears: `handle_tempo_disappear`. -/
  | exit_tap
  /-- Up button: `metro_up_single_click_handler`. -/
  | up
  /-- Down button in the metronome window: `metro_down_single_click_handler`. -/
  | down
  deriving DecidableEq, Repr

/-- Delivery of one event.  A timer that is not pending cannot fire. -/
def step (s : State) : Event → Except Fault State
  | .start => handle_metro_appear s
  | .fire k =>
    if k < s.timers.length then
      handle_tick_timer { s with timers := s.timers.eraseIdx k }
    else .ok s
  | .select => .ok (metro_select_single_click_handler s)
  | .tap seconds millis => tempo_single_click_handler s seconds millis
  | .exit_tap => .ok (handle_tempo_disappear s)
  | .up => .ok (metro_up_single_click_handler s)
  | .down => .ok (metro_down_single_click_handler s)

/-- Delivery of a sequence of events, stopping at the first trap. -/
def run (s : State) : List Event → Except Fault State
  | [] => .ok s
  | e :: es =>
    match step s e with
    | .error f => .error f
    | .ok s1 => run s1 es

/-- A state the program can be in: `init` followed by some events. -/
def Reachable (s : State) : Prop := ∃ es : List Event, run init es = .ok s

/-- Successive calls of `add_click`: the returned intervals and the final state. -/
def add_clicks (s : State) : List Nat → Except Fault (List Nat × State)
  | [] => .ok ([], s)
  | t :: ts =>
    match add_click s t with
    | .error f => .error f
    | .ok (r, s1) =>
      match add_clicks s1 ts with
      | .error f => .error f
      | .ok (rs, s2) => .ok (r :: rs, s2)

/-! ## Specification-level notions -/

/-- The samples currently retained: `tempo_times[0 .. tempo_clicks - 1]`, oldest first. -/
def history (s : State) : List Nat := s.tempo_times.take s.tempo_clicks.toNat

/-- The array has `MAX_CLICKS` cells and the sample count lies in `[0, MAX_CLICKS]`. -/
def WF (s : State) : Prop :=
  s.tempo_times.length = MAX_CLICKS ∧ 0 ≤ s.tempo_clicks ∧ s.tempo_clicks ≤ (MAX_CLICKS : Int)

instance (s : State) : Decidable (WF s) := by unfold WF; infer_instance

/-- Ring policy of the sample history: at capacity the oldest sample is dropped
before the new one is appended. -/
def push (w : List Nat) (t : Nat) : List Nat :=
  if w.length = MAX_CLICKS then w.tail ++ [t] else w ++ [t]

/-- The last `MAX_CLICKS` taps of a tap sequence, in arrival order. -/
def window (ts : List Nat) : List Nat := ts.drop (ts.length - MAX_CLICKS)

/-- The estimate in the spec's words: none (0) below two samples, else
`(newest - oldest) / (count - 1)`. -/
def estimate (w : List Nat) : Nat :=
  if w.length < 2 then 0 else (w.getLastD 0 - w.headD 0) / (w.length - 1)

/-- The value `add_click` computes from the retained samples `w`: the difference
is taken modulo `2^32` and the quotient is returned through `uint16_t`. -/
def interval16 (w : List Nat) : Nat :=
  if w.length < 2 then 0 else (sub32 (w.getLastD 0) (w.headD 0) / (w.length - 1)) % U16

/-- The values of `interval16` along a tap sequence that starts with the samples `w`. -/
def intervals (w : List Nat) : List Nat → List Nat
  | [] => []
  | t :: ts => interval16 (push w t) :: intervals (push w t) ts

/-- The two states agree on everything but the sample history. -/
def SameRest (s s1 : State) : Prop :=
  s1.metro_running = s.metro_running ∧ s1.metro_bpm = s.metro_bpm ∧
  s1.metro_tock = s.metro_tock ∧ s1.tempo_bpm = s.tempo_bpm ∧ s1.timers = s.timers

/-- Every `start` of the event sequence is delivered while no timer is pending
(the precondition the spec puts on `start`); computed along the run from `s`. -/
def startsIdle (s : State) : List Event → Bool
  | [] => true
  | e :: es =>
    (if e = Event.start then s.timers.isEmpty else true) &&
      (match step s e with
       | .ok s1 => startsIdle s1 es
       | .error _ => true)

/-- The event is neither `start` nor a timer fire. -/
def Event.quiet : Event → Bool
  | .start => false
  | .fire _ => false
  | _ => true

/-- The taps `t0, t0 + d, ..., t0 + (n-1) * d` as 32-bit clock readings. -/
def fixed_taps (t0 d n : Nat) : List Nat := (List.range n).map (fun k => (t0 + k * d) % U32)

/-- An example state in the tempo window: a full history of old samples and an old
candidate. -/
def stale_state : State :=
  { metro_running := 0, metro_bpm := 60, metro_tock := 0,
    tempo_clicks := 5, tempo_times := [11, 22, 33, 44, 55], tempo_bpm := 90,
    timers := [] }

/-- The invariant of the reachable states: a well-formed history, `metro_bpm` in
`[1, 60000]`, the candidate in `[0, 60000]`, a phase of 0 or 1, and every pending timer
with a delay in `[1, 60000]`. -/
def Inv (s : State) : Prop :=
  WF s ∧ 1 ≤ s.metro_bpm ∧ s.metro_bpm ≤ 60000 ∧ 0 ≤ s.tempo_bpm ∧ s.tempo_bpm ≤ 60000 ∧
  (s.metro_tock = 0 ∨ s.metro_tock = 1) ∧ ∀ d ∈ s.timers, 1 ≤ d ∧ d ≤ 60000

/-- An example state: the tap session select, tap at 0 ms, tap at 1 ms, exit from the
tempo window has committed 60000 BPM. -/
def fastest_state : State :=
  { metro_running := 0, metro_bpm := 60000, metro_tock := 0,
    tempo_clicks := 0, tempo_times := [0, 1, 0, 0, 0], tempo_bpm := 60000,
    timers := [] }

/-- Where the host's window stack stands.  `init` pushes the metronome window, whose
`appear` handler is `handle_metro_appear`; the select handler pushes the tempo window;
leaving the tempo window calls its `disappear` handler `handle_tempo_disappear` and then
the metronome window appears again. -/
inductive Phase where
  /-- After `init`, before the metronome window has appeared. -/
  | boot
  /-- The metronome window is on top: `metro_config_provider` is in force. -/
  | metro
  /-- The tempo window is on top: `tempo_config_provider` is in force. -/
  | tempo
  /-- The tempo window has disappeared, the metronome window appears next. -/
  | leaving
  deriving DecidableEq, Repr

/-- The events the wiring of `init` lets the host deliver in a phase, and the phase that
follows: select, up and down in the metronome window, the tap in the tempo window, the
`appear` and `disappear` handlers at the window changes, a timer fire at any time. -/
def Phase.next : Phase → Event → Option Phase
  | p, .fire _ => some p
  | .boot, .start => some .metro
  | .leaving, .start => some .metro
  | .metro, .select => some .tempo
  | .metro, .up => some .metro
  | .metro, .down => some .metro
  | .tempo, .tap _ _ => some .tempo
  | .tempo, .exit_tap => some .leaving
  | _, _ => none

/-- The phase after an event sequence, if the sequence follows the wiring. -/
def phase_after : Phase → List Event → Option Phase
  | p, [] => some p
  | p, e :: es =>
    match p.next e with
    | none => none
    | some q => phase_after q es

/-- The history is well-formed, and empty outside the tempo window. -/
def PhaseInv (p : Phase) (s : State) : Prop :=
  WF s ∧ (p ≠ Phase.tempo → s.tempo_clicks = 0)

/-- An example state: the metronome was started and its timer has fired once. -/
def ticking_state : State :=
  { metro_running := 1, metro_bpm := 60, metro_tock := 1,
    tempo_clicks := 0, tempo_times := [0, 0, 0, 0, 0], tempo_bpm := 0,
    timers := [1000] }

/-! ## Lemmas on `add_click` -/

theorem list_len5 (l : List Nat) (h : l.length = 5) : ∃ a b c d e, l = [a, b, c, d, e] := by
  match l, h with
  | [a, b, c, d, e], _ => exact ⟨a, b, c, d, e, rfl⟩

/-- One call of `add_click` on a well-formed state: it does not trap, pushes the
tap on the history and returns `interval16` of the new history. -/
theorem add_click_step (s : State) (t : Nat) (h : WF s) :
    ∃ s1, add_click s t = .ok (interval16 (push (history s) t), s1) ∧ WF s1 ∧
      history s1 = push (history s) t ∧ SameRest s s1 := by
  obtain ⟨hl, h0, h5⟩ := h
  obtain ⟨r, bpm, tock, c, times, tb, tm⟩ := s
  simp only [MAX_CLICKS] at hl h0 h5
  obtain ⟨a, b, c1, d, e, rfl⟩ := list_len5 times hl
  have hc : c = 0 ∨ c = 1 ∨ c = 2 ∨ c = 3 ∨ c = 4 ∨ c = 5 := by
    simp only [Nat.cast_ofNat] at h5; omega
  rcases hc with rfl | rfl | rfl | rfl | rfl | rfl <;>
    simp [add_click, WF, history, push, interval16, SameRest, MAX_CLICKS, wr, rd, udiv, toU32,
      shuffle_loop, shuffle_body, U32, U16]

theorem SameRest.trans {a b c : State} (h1 : SameRest a b) (h2 : SameRest b c) :
    SameRest a c := by
  obtain ⟨p1, p2, p3, p4, p5⟩ := h1
  obtain ⟨q1, q2, q3, q4, q5⟩ := h2
  exact ⟨q1.trans p1, q2.trans p2, q3.trans p3, q4.trans p4, q5.trans p5⟩

theorem add_clicks_spec (ts : List Nat) : ∀ s : State, WF s →
    ∃ s1, add_clicks s ts = .ok (intervals (history s) ts, s1) ∧ WF s1 ∧
      history s1 = ts.foldl push (history s) ∧ SameRest s s1 := by
  induction ts with
  | nil => intro s h; exact ⟨s, rfl, h, rfl, rfl, rfl, rfl, rfl, rfl⟩
  | cons t ts ih =>
    intro s h
    obtain ⟨s1, e1, w1, h1, r1⟩ := add_click_step s t h
    obtain ⟨s2, e2, w2, h2, r2⟩ := ih s1 w1
    refine ⟨s2, ?_, w2, ?_, r1.trans r2⟩
    · simp only [add_clicks, e1, e2, intervals, h1]
    · simp only [List.foldl_cons, h2, h1]

theorem window_snoc (pre : List Nat) (t : Nat) :
    window (pre ++ [t]) = push (window pre) t := by
  unfold window push
  simp only [MAX_CLICKS, List.length_append, List.length_singleton, List.length_drop]
  by_cases h : pre.length ≤ 4
  · have e1 : pre.length + 1 - 5 = 0 := by omega
    have e2 : pre.length - 5 = 0 := by omega
    have e3 : ¬ pre.length = 5 := by omega
    simp [e1, e2, e3]
  · have e3 : pre.length - (pre.length - 5) = 5 := by omega
    have e4 : pre.length + 1 - 5 = pre.length - 5 + 1 := by omega
    rw [if_pos e3, List.tail_drop, e4, List.drop_append_of_le_length (by omega)]

theorem foldl_push_nil (ts : List Nat) : ts.foldl push [] = window ts := by
  induction ts using List.reverseRecOn with
  | nil => rfl
  | append_singleton pre t ih => rw [List.foldl_append, ih, window_snoc]; rfl

theorem history_of_empty (s : State) (h : s.tempo_clicks = 0) : history s = [] := by
  simp [history, h]

theorem window_length (ts : List Nat) : (window ts).length = min ts.length MAX_CLICKS := by
  simp only [window, List.length_drop]; omega

/-- The taps `pre` recorded into an empty history, then the tap `t`. -/
theorem add_click_after (s : State) (pre : List Nat) (t : Nat) (hwf : WF s)
    (hempty : s.tempo_clicks = 0) :
    ∃ s1 s2, add_clicks s pre = .ok (intervals [] pre, s1) ∧
      add_click s1 t = .ok (interval16 (window (pre ++ [t])), s2) ∧
      WF s2 ∧ history s2 = window (pre ++ [t]) ∧ SameRest s s2 := by
  obtain ⟨s1, e1, w1, h1, r1⟩ := add_clicks_spec pre s hwf
  obtain ⟨s2, e2, w2, h2, r2⟩ := add_click_step s1 t w1
  rw [history_of_empty s hempty] at e1 h1
  rw [h1, foldl_push_nil, ← window_snoc] at e2 h2
  exact ⟨s1, s2, e1, e2, w2, h2, r1.trans r2⟩

theorem getLastD_eq_or_mem (l : List Nat) : ∀ a : Nat, l.getLastD a = a ∨ l.getLastD a ∈ l := by
  induction l with
  | nil => intro a; exact Or.inl rfl
  | cons b r ih =>
    intro a
    rw [List.getLastD_cons]
    rcases ih b with h | h
    · exact Or.inr (by rw [h]; exact List.mem_cons_self _ _)
    · exact Or.inr (List.mem_cons_of_mem _ h)

/-- On non-decreasing 32-bit samples the difference does not wrap. -/
theorem interval16_sorted (w : List Nat) (hs : w.Sorted (· ≤ ·)) (hb : ∀ x ∈ w, x < U32) :
    interval16 w = estimate w % U16 := by
  unfold interval16 estimate
  by_cases hlen : w.length < 2
  · simp [hlen]
  · rw [if_neg hlen, if_neg hlen]
    cases w with
    | nil => simp at hlen
    | cons a r =>
      have ha : a < U32 := hb a (List.mem_cons_self _ _)
      have hle : a ≤ r.getLastD a ∧ r.getLastD a < U32 := by
        rcases getLastD_eq_or_mem r a with h | h
        · rw [h]; exact ⟨le_refl _, ha⟩
        · exact ⟨(List.sorted_cons.mp hs).1 _ h, hb _ (List.mem_cons_of_mem _ h)⟩
      have hsub : sub32 (r.getLastD a) a = r.getLastD a - a := by
        unfold sub32; unfold U32 at *; omega
      simp only [List.getLastD_cons, List.headD_cons, hsub]

theorem push_getLastD (w : List Nat) (t : Nat) : (push w t).getLastD 0 = t := by
  unfold push
  split <;> simp [List.getLastD_eq_getLast?]

theorem history_length (s : State) (h : WF s) : ((history s).length : Int) = s.tempo_clicks := by
  obtain ⟨hl, h0, h5⟩ := h
  simp only [history, List.length_take, hl]
  omega

/-! ## The claims -/

/-- C1 (amended): for non-decreasing 32-bit taps `pre ++ [t]` recorded into an empty
history, the call of `add_click` for the last tap `t` does not trap; it returns 0 when
the history then holds fewer than 2 samples and otherwise the integer quotient
`(newest - oldest) / (count - 1)` reduced modulo `2^16` (the return type is `uint16_t`),
which is the quotient itself whenever the quotient is below 65536.  Here oldest and count
are read off the retained samples, which are the last `MAX_CLICKS` taps. -/
theorem C1_add_click_windowed_average (s : State) (pre : List Nat) (t : Nat)
    (hwf : WF s) (hempty : s.tempo_clicks = 0)
    (hb : ∀ x ∈ pre ++ [t], x < U32) (hs : (pre ++ [t]).Sorted (· ≤ ·)) :
    ∃ rs s1 r s2, add_clicks s pre = .ok (rs, s1) ∧ add_click s1 t = .ok (r, s2) ∧
      history s2 = window (pre ++ [t]) ∧
      r = (if (history s2).length < 2 then 0
        else ((t - (history s2).headD 0) / ((history s2).length - 1)) % U16) ∧
      ((t - (history s2).headD 0) / ((history s2).length - 1) < U16 →
        r = (if (history s2).length < 2 then 0
          else (t - (history s2).headD 0) / ((history s2).length - 1))) := by
  obtain ⟨s1, s2, e1, e2, _, h2, _⟩ := add_click_after s pre t hwf hempty
  have hw : (window (pre ++ [t])).Sorted (· ≤ ·) :=
    List.Pairwise.sublist (List.drop_sublist _ _) hs
  have hwb : ∀ x ∈ window (pre ++ [t]), x < U32 := fun x hx => hb x (List.mem_of_mem_drop hx)
  have hlast : (window (pre ++ [t])).getLastD 0 = t := by rw [window_snoc, push_getLastD]
  have key : interval16 (window (pre ++ [t])) =
      (if (window (pre ++ [t])).length < 2 then 0
        else ((t - (window (pre ++ [t])).headD 0) / ((window (pre ++ [t])).length - 1)) % U16) := by
    rw [interval16_sorted _ hw hwb, estimate, hlast]
    split <;> simp
  refine ⟨_, s1, _, s2, e1, e2, h2, ?_, ?_⟩
  · rw [h2]; exact key
  · intro hlt
    rw [h2] at hlt ⊢
    rw [key]
    split
    · rfl
    · exact Nat.mod_eq_of_lt hlt

/-- C1, witness: the taps 0, 500, 1000 recorded from the initial state. -/
theorem C1_add_click_windowed_average_witness :
    WF init ∧ init.tempo_clicks = 0 ∧ (∀ x ∈ [0, 500] ++ [1000], x < U32) ∧
    ([0, 500] ++ [1000]).Sorted (· ≤ ·) ∧
    ∃ rs s1 r s2, add_clicks init [0, 500] = .ok (rs, s1) ∧ add_click s1 1000 = .ok (r, s2) ∧
      history s2 = window ([0, 500] ++ [1000]) ∧
      r = (if (history s2).length < 2 then 0
        else ((1000 - (history s2).headD 0) / ((history s2).length - 1)) % U16) ∧
      ((1000 - (history s2).headD 0) / ((history s2).length - 1) < U16 →
        r = (if (history s2).length < 2 then 0
          else (1000 - (history s2).headD 0) / ((history s2).length - 1))) :=
  ⟨by decide, rfl, by decide, by decide,
    C1_add_click_windowed_average init [0, 500] 1000 (by decide) rfl (by decide) (by decide)⟩

/-- C1, counterexample to the claim as stated: the non-decreasing taps 0 and 70000 recorded
into the empty history of the initial state.  The second call retains 2 samples, the
quotient `(70000 - 0) / (2 - 1)` is 70000, and `add_click` returns 4464. -/
theorem C1_counterexample :
    ∃ s1 r s2, add_clicks init [0] = .ok ([0], s1) ∧ add_click s1 70000 = .ok (r, s2) ∧
      history s2 = [0, 70000] ∧ r = 4464 ∧
      r ≠ (70000 - (history s2).headD 0) / ((history s2).length - 1) := by
  refine ⟨_, _, _, rfl, rfl, ?_, ?_, ?_⟩ <;> decide

/-- C6: for every sequence of `n` taps recorded by `add_click` into an empty history, no
call traps, the sample count and the history length are `min n 5`, the retained samples are
the last `min n 5` taps in arrival order, oldest first; after 6 taps the earliest retained
sample is the 2nd tap and the averaging denominator `tempo_clicks - 1` is 4. -/
theorem C6_history_is_last_five_taps (s : State) (ts : List Nat)
    (hwf : WF s) (hempty : s.tempo_clicks = 0) :
    ∃ rs s1, add_clicks s ts = .ok (rs, s1) ∧
      s1.tempo_clicks = min ts.length 5 ∧ (history s1).length = min ts.length 5 ∧
      (history s1).length ≤ 5 ∧
      history s1 = ts.drop (ts.length - min ts.length 5) ∧
      (ts.length = 6 → (history s1).head? = ts[1]? ∧ s1.tempo_clicks - 1 = 4) := by
  obtain ⟨s1, e1, w1, h1, _⟩ := add_clicks_spec ts s hwf
  rw [history_of_empty s hempty, foldl_push_nil] at h1
  have hlen : (history s1).length = min ts.length 5 := by rw [h1, window_length]; rfl
  have hc : s1.tempo_clicks = min ts.length 5 := by
    rw [← history_length s1 w1, hlen]
  have hd : ts.length - min ts.length 5 = ts.length - MAX_CLICKS := by
    simp only [MAX_CLICKS]; omega
  refine ⟨_, s1, e1, hc, hlen, by omega, by rw [hd]; exact h1, ?_⟩
  intro h6
  constructor
  · rw [h1, window, h6, List.head?_drop]; rfl
  · rw [hc, h6]; rfl

/-- C6, witness: six taps recorded from the initial state. -/
theorem C6_history_is_last_five_taps_witness :
    WF init ∧ init.tempo_clicks = 0 ∧
    ∃ rs s1, add_clicks init [10, 20, 30, 40, 50, 60] = .ok (rs, s1) ∧
      s1.tempo_clicks = min [10, 20, 30, 40, 50, 60].length 5 ∧
      (history s1).length = min [10, 20, 30, 40, 50, 60].length 5 ∧
      (history s1).length ≤ 5 ∧
      history s1 = [10, 20, 30, 40, 50, 60].drop
        ([10, 20, 30, 40, 50, 60].length - min [10, 20, 30, 40, 50, 60].length 5) ∧
      ([10, 20, 30, 40, 50, 60].length = 6 →
        (history s1).head? = [10, 20, 30, 40, 50, 60][1]? ∧ s1.tempo_clicks - 1 = 4) :=
  ⟨by decide, rfl, C6_history_is_last_five_taps init [10, 20, 30, 40, 50, 60] (by decide) rfl⟩

/-! ## Lemmas on the handlers -/

theorem add_click_frame (s : State) (t r : Nat) (s1 : State)
    (h : add_click s t = .ok (r, s1)) : SameRest s s1 := by
  unfold add_click at h
  simp only at h
  split at h
  · cases h
  · rename_i sa hsa
    have hf : SameRest s sa := by
      split at hsa
      · split at hsa
        · cases hsa
        · cases hsa; exact ⟨rfl, rfl, rfl, rfl, rfl⟩
      · cases hsa; exact ⟨rfl, rfl, rfl, rfl, rfl⟩
    split at h
    · cases h
    · split at h
      · cases h; exact hf
      · split at h
        · cases h
        · split at h
          · cases h
          · cases h; exact hf

/-- A tap changes neither the metronome variables nor the pending timers; the candidate
`tempo_bpm` may change. -/
theorem tap_frame (s : State) (seconds millis : Nat) (s1 : State)
    (h : tempo_single_click_handler s seconds millis = .ok s1) :
    s1.metro_running = s.metro_running ∧ s1.metro_bpm = s.metro_bpm ∧
    s1.metro_tock = s.metro_tock ∧ s1.timers = s.timers := by
  unfold tempo_single_click_handler at h
  simp only at h
  split at h
  · cases h
  · rename_i diff sa hsa
    obtain ⟨p1, p2, p3, _, p5⟩ := add_click_frame _ _ _ _ hsa
    split at h
    · cases h; exact ⟨p1, p2, p3, p5⟩
    · split at h
      · cases h
      · cases h; exact ⟨p1, p2, p3, p5⟩

theorem toU32_tdiv (b : Int) (hb : 0 < b) : toU32 (Int.tdiv 60000 b) = 60000 / b.toNat := by
  obtain ⟨n, rfl⟩ := Int.eq_ofNat_of_zero_le (le_of_lt hb)
  have h1 : Int.tdiv 60000 (n : Int) = ((60000 / n : Nat) : Int) := (Int.ofNat_tdiv 60000 n).symm
  have h2 : 60000 / n ≤ 60000 := Nat.div_le_self _ _
  have h3 : (n : Int).toNat = n := Int.toNat_ofNat n
  rw [h1, h3]
  generalize 60000 / n = q at h2
  simp only [toU32, U32]
  omega

/-- On a positive `metro_bpm`, `schedule_tick` registers one timer of `60000 / metro_bpm` ms
and changes nothing else. -/
theorem schedule_tick_pos (s : State) (hb : 0 < s.metro_bpm) :
    schedule_tick s = .ok { s with timers := s.timers ++ [60000 / s.metro_bpm.toNat] } := by
  have hne : s.metro_bpm ≠ 0 := ne_of_gt hb
  simp [schedule_tick, sdiv, hne, app_timer_register, toU32_tdiv _ hb]

/-- Whenever `schedule_tick` returns, it has added exactly one timer and changed nothing else. -/
theorem schedule_tick_ok (s s1 : State) (h : schedule_tick s = .ok s1) :
    ∃ d, s1 = { s with timers := s.timers ++ [d] } := by
  unfold schedule_tick at h
  split at h
  · cases h
  · cases h; exact ⟨_, rfl⟩

/-- Effect of one event on the number of pending timers. -/
theorem step_timers (s : State) (e : Event) (s1 : State) (h : step s e = .ok s1) :
    (e = Event.start → s1.timers.length = s.timers.length + 1) ∧
    (e ≠ Event.start → s1.timers.length ≤ s.timers.length) ∧
    (e.quiet = true → s1.timers = s.timers ∧ s1.metro_tock = s.metro_tock ∧
      (s.metro_running = 0 → s1.metro_running = 0)) := by
  cases e with
  | start =>
    obtain ⟨d, rfl⟩ := schedule_tick_ok _ _ h
    simp [Event.quiet]
  | fire k =>
    simp only [step] at h
    refine ⟨by simp, fun _ => ?_, by simp [Event.quiet]⟩
    split at h
    · rename_i hk
      unfold handle_tick_timer at h
      simp only at h
      split at h
      · obtain ⟨d, rfl⟩ := schedule_tick_ok _ _ h
        simp only [List.length_append, List.length_eraseIdx, List.length_singleton]
        rw [if_pos hk]
        omega
      · cases h
        simp only [List.length_eraseIdx]
        split <;> omega
    · cases h; exact le_refl _
  | select => cases h; simp [metro_select_single_click_handler, Event.quiet]
  | tap seconds millis =>
    obtain ⟨p1, _, p3, p4⟩ := tap_frame _ _ _ _ h
    simp [Event.quiet, p1, p3, p4]
  | exit_tap =>
    cases h
    simp only [handle_tempo_disappear, Event.quiet]
    split <;> simp
  | up =>
    cases h
    simp only [metro_up_single_click_handler, Event.quiet]
    split <;> simp
  | down =>
    cases h
    simp only [metro_down_single_click_handler, Event.quiet]
    split <;> simp

theorem run_timers_le_one (es : List Event) : ∀ s s1 : State, s.timers.length ≤ 1 →
    startsIdle s es = true → run s es = .ok s1 → s1.timers.length ≤ 1 := by
  induction es with
  | nil => intro s s1 h _ hr; cases hr; exact h
  | cons e es ih =>
    intro s s1 h hi hr
    simp only [startsIdle, Bool.and_eq_true] at hi
    simp only [run] at hr
    split at hr
    · cases hr
    · rename_i sa hsa
      rw [hsa] at hi
      obtain ⟨t1, t2, _⟩ := step_timers s e sa hsa
      refine ih sa s1 ?_ hi.2 hr
      by_cases he : e = Event.start
      · have h0 : s.timers = [] := by
          have := hi.1
          rw [if_pos he] at this
          exact List.isEmpty_iff.mp this
        rw [t1 he, h0]; rfl
      · exact le_trans (t2 he) h

/-- C2 (the code at the failing input): a first tap-tempo session with the taps 0 ms and
500 ms commits 120 BPM; the up button then raises `metro_bpm` to 121; a second session
without any tap (so without any non-zero interval) ends with `metro_bpm` 120 instead of
121, because `tempo_bpm` still holds the candidate of the first session. -/
theorem C2_stale_candidate_committed :
    ∃ s1 s2,
      run init [Event.start, Event.select, Event.tap 0 0, Event.tap 0 500, Event.exit_tap,
        Event.start, Event.up] = .ok s1 ∧
      s1.metro_bpm = 121 ∧ s1.tempo_clicks = 0 ∧
      run s1 [Event.select, Event.exit_tap] = .ok s2 ∧
      s2.metro_bpm = 120 ∧ s2.metro_bpm ≠ s1.metro_bpm := by
  refine ⟨_, _, rfl, ?_, ?_, rfl, ?_, ?_⟩ <;> decide

/-- C3 (amended): in every state reachable from the initial state by an event sequence in
which each `start` is delivered while no timer is pending, at most one tick timer is
pending.  `start` itself is unguarded: whenever it returns it has registered one more
timer, whatever was pending before. -/
theorem C3_at_most_one_timer_if_start_when_idle (es : List Event) (s : State)
    (hidle : startsIdle init es = true) (hrun : run init es = .ok s) :
    s.timers.length ≤ 1 ∧
    ∀ s1, step s Event.start = .ok s1 → s1.timers.length = s.timers.length + 1 :=
  ⟨run_timers_le_one es init s (by decide) hidle hrun,
    fun s1 h => (step_timers s Event.start s1 h).1 rfl⟩

/-- C3, witness: start, a fire that reschedules, a tap session, the lazy last fire, and a
new start. -/
theorem C3_at_most_one_timer_if_start_when_idle_witness :
    startsIdle init [Event.start, Event.fire 0, Event.select, Event.tap 0 0, Event.exit_tap,
      Event.fire 0, Event.start] = true ∧
    ∃ s, run init [Event.start, Event.fire 0, Event.select, Event.tap 0 0, Event.exit_tap,
      Event.fire 0, Event.start] = .ok s ∧ s.timers = [1000] ∧
      (s.timers.length ≤ 1 ∧
        ∀ s1, step s Event.start = .ok s1 → s1.timers.length = s.timers.length + 1) :=
  ⟨by decide, _, rfl, by decide,
    C3_at_most_one_timer_if_start_when_idle
      [Event.start, Event.fire 0, Event.select, Event.tap 0 0, Event.exit_tap,
        Event.fire 0, Event.start] _ (by decide) rfl⟩

/-- C3, counterexample to the claim as stated: two `start` events without a fire or a stop
in between leave two timers pending; so does the sequence start, stop (select), exit from
the tempo window, start, which the buttons can produce within one tick period. -/
theorem C3_counterexample :
    (∃ s, run init [Event.start, Event.start] = .ok s ∧ s.timers = [1000, 1000] ∧
      ¬ s.timers.length ≤ 1) ∧
    (∃ s, run init [Event.start, Event.select, Event.exit_tap, Event.start] = .ok s ∧
      s.timers = [1000, 1000] ∧ ¬ s.timers.length ≤ 1) := by
  refine ⟨⟨_, rfl, ?_, ?_⟩, ⟨_, rfl, ?_, ?_⟩⟩ <;> decide

/-- C4: for every state in which the quotient `60000 / metro_bpm` is defined whenever the
metronome runs, `handle_tick_timer` returns, toggles the phase, and registers a new tick
timer if and only if `metro_running` is non-zero at the call; the delay of the new timer is
`60000 / metro_bpm` for the `metro_bpm` of the state in which the callback runs (for a
positive `metro_bpm` the quotient of natural numbers), and the timers already pending are
left as they are. -/
theorem C4_fire_reschedules_with_current_bpm (s : State)
    (hdef : s.metro_running ≠ 0 → s.metro_bpm ≠ 0) :
    ∃ s1, handle_tick_timer s = .ok s1 ∧
      (s.metro_running ≠ 0 → s1.timers = s.timers ++ [toU32 (Int.tdiv 60000 s.metro_bpm)]) ∧
      (s.metro_running = 0 → s1.timers = s.timers) ∧
      (s1.timers.length = s.timers.length + 1 ↔ s.metro_running ≠ 0) ∧
      (0 < s.metro_bpm → toU32 (Int.tdiv 60000 s.metro_bpm) = 60000 / s.metro_bpm.toNat) ∧
      s1.metro_bpm = s.metro_bpm ∧ s1.metro_running = s.metro_running ∧
      s1.metro_tock = (if s.metro_tock = 0 then 1 else 0) := by
  unfold handle_tick_timer
  by_cases hr : s.metro_running = 0
  · simp only [hr, ne_eq, not_true_eq_false, if_false]
    exact ⟨_, rfl, fun h => h.elim, fun _ => rfl, by simp, toU32_tdiv _, rfl, rfl, rfl⟩
  · have hb : s.metro_bpm ≠ 0 := hdef hr
    simp only [ne_eq, hr, not_false_eq_true, if_true, schedule_tick, sdiv, hb, if_false,
      app_timer_register]
    exact ⟨_, rfl, fun _ => rfl, fun h => h.elim, by simp, toU32_tdiv _, rfl, rfl, rfl⟩

/-- C4, witness: the metronome is started at 60 BPM (a timer of 1000 ms), the up button is
pressed 60 times (120 BPM), then the timer fires: the new timer has 500 ms, not 1000 ms. -/
theorem C4_fire_reschedules_with_current_bpm_witness :
    run init (Event.start :: List.replicate 60 Event.up) =
      .ok { init with metro_bpm := 120, timers := [1000] } ∧
    step { init with metro_bpm := 120, timers := [1000] } (Event.fire 0) =
      handle_tick_timer { init with metro_bpm := 120 } ∧
    toU32 (Int.tdiv 60000 ({ init with metro_bpm := 120 } : State).metro_bpm) = 500 ∧
    (({ init with metro_bpm := 120 } : State).metro_running ≠ 0 →
      ({ init with metro_bpm := 120 } : State).metro_bpm ≠ 0) ∧
    ∃ s1, handle_tick_timer { init with metro_bpm := 120 } = .ok s1 ∧
      (({ init with metro_bpm := 120 } : State).metro_running ≠ 0 →
        s1.timers = ({ init with metro_bpm := 120 } : State).timers ++
          [toU32 (Int.tdiv 60000 ({ init with metro_bpm := 120 } : State).metro_bpm)]) ∧
      (({ init with metro_bpm := 120 } : State).metro_running = 0 →
        s1.timers = ({ init with metro_bpm := 120 } : State).timers) ∧
      (s1.timers.length = ({ init with metro_bpm := 120 } : State).timers.length + 1 ↔
        ({ init with metro_bpm := 120 } : State).metro_running ≠ 0) ∧
      (0 < ({ init with metro_bpm := 120 } : State).metro_bpm →
        toU32 (Int.tdiv 60000 ({ init with metro_bpm := 120 } : State).metro_bpm) =
          60000 / ({ init with metro_bpm := 120 } : State).metro_bpm.toNat) ∧
      s1.metro_bpm = ({ init with metro_bpm := 120 } : State).metro_bpm ∧
      s1.metro_running = ({ init with metro_bpm := 120 } : State).metro_running ∧
      s1.metro_tock = (if ({ init with metro_bpm := 120 } : State).metro_tock = 0
        then 1 else 0) :=
  ⟨rfl, rfl, by decide, by decide,
    C4_fire_reschedules_with_current_bpm { init with metro_bpm := 120 } (by decide)⟩

/-- C5: for every `metro_bpm` in `[10, 500]` the up handler sets `metro_bpm` to
`min (metro_bpm + 1) 500` and the down handler sets it to `max (metro_bpm - 1) 10`; up at
500 leaves 500, down at 10 leaves 10, both keep `metro_bpm` in `[10, 500]` and change no
other variable. -/
theorem C5_up_down_clamped (s : State) (hlo : 10 ≤ s.metro_bpm) (hhi : s.metro_bpm ≤ 500) :
    metro_up_single_click_handler s = { s with metro_bpm := min (s.metro_bpm + 1) 500 } ∧
    metro_down_single_click_handler s = { s with metro_bpm := max (s.metro_bpm - 1) 10 } ∧
    (s.metro_bpm = 500 → (metro_up_single_click_handler s).metro_bpm = 500) ∧
    (s.metro_bpm = 10 → (metro_down_single_click_handler s).metro_bpm = 10) ∧
    (10 ≤ (metro_up_single_click_handler s).metro_bpm ∧
      (metro_up_single_click_handler s).metro_bpm ≤ 500) ∧
    (10 ≤ (metro_down_single_click_handler s).metro_bpm ∧
      (metro_down_single_click_handler s).metro_bpm ≤ 500) := by
  obtain ⟨r, bpm, tock, c, times, tb, tm⟩ := s
  simp only at hlo hhi
  simp only [metro_up_single_click_handler, metro_down_single_click_handler, MAX_TEMPO,
    MIN_TEMPO]
  refine ⟨?_, ?_, ?_, ?_, ?_, ?_⟩
  · split
    · rw [min_eq_left (by omega)]
    · have : bpm = 500 := by omega
      subst this; rfl
  · split
    · rw [max_eq_left (by omega)]
    · have : bpm = 10 := by omega
      subst this; rfl
  · intro h; subst h; rfl
  · intro h; subst h; rfl
  · split <;> constructor <;> simp only <;> omega
  · split <;> constructor <;> simp only <;> omega

/-- C5, witness: the upper bound 500. -/
theorem C5_up_down_clamped_witness :
    10 ≤ ({ init with metro_bpm := 500 } : State).metro_bpm ∧
    ({ init with metro_bpm := 500 } : State).metro_bpm ≤ 500 ∧
    (metro_up_single_click_handler { init with metro_bpm := 500 } =
      { ({ init with metro_bpm := 500 } : State) with
        metro_bpm := min (({ init with metro_bpm := 500 } : State).metro_bpm + 1) 500 } ∧
    metro_down_single_click_handler { init with metro_bpm := 500 } =
      { ({ init with metro_bpm := 500 } : State) with
        metro_bpm := max (({ init with metro_bpm := 500 } : State).metro_bpm - 1) 10 } ∧
    (({ init with metro_bpm := 500 } : State).metro_bpm = 500 →
      (metro_up_single_click_handler { init with metro_bpm := 500 }).metro_bpm = 500) ∧
    (({ init with metro_bpm := 500 } : State).metro_bpm = 10 →
      (metro_down_single_click_handler { init with metro_bpm := 500 }).metro_bpm = 10) ∧
    (10 ≤ (metro_up_single_click_handler { init with metro_bpm := 500 }).metro_bpm ∧
      (metro_up_single_click_handler { init with metro_bpm := 500 }).metro_bpm ≤ 500) ∧
    (10 ≤ (metro_down_single_click_handler { init with metro_bpm := 500 }).metro_bpm ∧
      (metro_down_single_click_handler { init with metro_bpm := 500 }).metro_bpm ≤ 500)) :=
  ⟨by decide, by decide,
    C5_up_down_clamped { init with metro_bpm := 500 } (by decide) (by decide)⟩

/-! ## Lemmas on the tap handler -/

/-- With the array of `MAX_CLICKS` cells, `add_click` never divides by zero, whatever the
value of `tempo_clicks`. -/
theorem add_click_no_div_fault (s : State) (t : Nat) (harr : s.tempo_times.length = MAX_CLICKS) :
    add_click s t ≠ .error .divByZero := by
  by_cases hwf : 0 ≤ s.tempo_clicks ∧ s.tempo_clicks ≤ (MAX_CLICKS : Int)
  · obtain ⟨s1, e1, _⟩ := add_click_step s t ⟨harr, hwf⟩
    rw [e1]; exact fun h => by cases h
  · have hne : ¬ (MAX_CLICKS : Int) = s.tempo_clicks := by
      intro h; apply hwf; rw [← h]; simp [MAX_CLICKS]
    have hw : ¬ (0 ≤ s.tempo_clicks ∧ s.tempo_clicks.toNat < s.tempo_times.length) := by
      rw [harr]; simp only [MAX_CLICKS] at hwf ⊢; omega
    simp [add_click, hne, wr, hw]

theorem tap_of_add_click_ok (s : State) (seconds millis r : Nat) (s1 : State)
    (h : add_click s ((seconds * 1000 + millis) % U32) = .ok (r, s1)) :
    tempo_single_click_handler s seconds millis =
      .ok (if r = 0 then s1 else { s1 with tempo_bpm := Int.tdiv 60000 r }) := by
  unfold tempo_single_click_handler
  simp only [h]
  by_cases hr : r = 0
  · simp [hr]
  · have hr2 : ¬ (r : Int) = 0 := by exact_mod_cast hr
    simp [hr, sdiv, hr2]

theorem tap_of_add_click_error (s : State) (seconds millis : Nat) (f : Fault)
    (h : add_click s ((seconds * 1000 + millis) % U32) = .error f) :
    tempo_single_click_handler s seconds millis = .error f := by
  unfold tempo_single_click_handler
  simp only [h]

theorem sub32_self (t : Nat) : sub32 t t = 0 := by
  unfold sub32 U32
  omega

/-- A tap on a well-formed state returns and keeps the state well-formed. -/
theorem tap_WF (s : State) (seconds millis : Nat) (h : WF s) :
    ∃ s1, tempo_single_click_handler s seconds millis = .ok s1 ∧ WF s1 := by
  obtain ⟨sa, e1, w1, _, _⟩ := add_click_step s ((seconds * 1000 + millis) % U32) h
  refine ⟨_, tap_of_add_click_ok _ _ _ _ _ e1, ?_⟩
  split
  · exact w1
  · exact w1

/-- An event other than `start` and a timer fire, delivered to a well-formed state, returns
and keeps the state well-formed. -/
theorem step_quiet_WF (s : State) (e : Event) (h : WF s) (hq : e.quiet = true) :
    ∃ s1, step s e = .ok s1 ∧ WF s1 := by
  cases e with
  | start => simp [Event.quiet] at hq
  | fire k => simp [Event.quiet] at hq
  | select => exact ⟨_, rfl, h⟩
  | tap seconds millis => exact tap_WF s seconds millis h
  | exit_tap =>
    refine ⟨_, rfl, ?_⟩
    obtain ⟨hl, _, _⟩ := h
    unfold handle_tempo_disappear
    simp only
    split <;> exact ⟨hl, le_refl _, by simp [MAX_CLICKS]⟩
  | up =>
    refine ⟨_, rfl, ?_⟩
    unfold metro_up_single_click_handler
    split
    · exact h
    · exact h
  | down =>
    refine ⟨_, rfl, ?_⟩
    unfold metro_down_single_click_handler
    split
    · exact h
    · exact h

theorem run_quiet_WF (es : List Event) : ∀ s : State, WF s →
    (∀ e ∈ es, e.quiet = true) → ∃ s1, run s es = .ok s1 := by
  induction es with
  | nil => intro s _ _; exact ⟨s, rfl⟩
  | cons e es ih =>
    intro s h hq
    obtain ⟨sa, e1, w1⟩ := step_quiet_WF s e h (hq e (List.mem_cons_self _ _))
    obtain ⟨s1, e2⟩ := ih sa w1 (fun x hx => hq x (List.mem_cons_of_mem _ hx))
    exact ⟨s1, by simp only [run, e1, e2]⟩

theorem run_quiet_frame (es : List Event) : ∀ s s1 : State,
    (∀ e ∈ es, e.quiet = true) → run s es = .ok s1 →
    s1.timers = s.timers ∧ s1.metro_tock = s.metro_tock ∧
      (s.metro_running = 0 → s1.metro_running = 0) := by
  induction es with
  | nil => intro s s1 _ hr; cases hr; exact ⟨rfl, rfl, id⟩
  | cons e es ih =>
    intro s s1 hq hr
    simp only [run] at hr
    split at hr
    · cases hr
    · rename_i sa hsa
      obtain ⟨a1, a2, a3⟩ := (step_timers s e sa hsa).2.2 (hq e (List.mem_cons_self _ _))
      obtain ⟨b1, b2, b3⟩ := ih sa s1 (fun x hx => hq x (List.mem_cons_of_mem _ hx)) hr
      exact ⟨b1.trans a1, b2.trans a2, fun h => b3 (a3 h)⟩

/-- C7: for every state whose sample array has its `MAX_CLICKS` cells (any `tempo_clicks`,
any contents, any candidate) and every clock reading, neither `add_click` nor the tap
handler divides by zero.  When `add_click` returns the interval 0 the handler returns the
state `add_click` left, with the candidate `tempo_bpm` unchanged; when it returns a
non-zero interval `r` the handler stores `60000 / r`; two taps at the identical
millisecond into an empty history leave the candidate unchanged. -/
theorem C7_tap_never_divides_by_zero (s : State) (seconds millis : Nat)
    (harr : s.tempo_times.length = MAX_CLICKS) :
    add_click s ((seconds * 1000 + millis) % U32) ≠ .error .divByZero ∧
    tempo_single_click_handler s seconds millis ≠ .error .divByZero ∧
    (∀ s1, add_click s ((seconds * 1000 + millis) % U32) = .ok (0, s1) →
      tempo_single_click_handler s seconds millis = .ok s1 ∧ s1.tempo_bpm = s.tempo_bpm) ∧
    (∀ r s1, add_click s ((seconds * 1000 + millis) % U32) = .ok (r, s1) → r ≠ 0 →
      tempo_single_click_handler s seconds millis =
        .ok { s1 with tempo_bpm := Int.tdiv 60000 r }) ∧
    (s.tempo_clicks = 0 →
      ∃ s2, run s [Event.tap seconds millis, Event.tap seconds millis] = .ok s2 ∧
        s2.tempo_bpm = s.tempo_bpm ∧ s2.tempo_clicks = 2) := by
  have hadd := add_click_no_div_fault s ((seconds * 1000 + millis) % U32) harr
  refine ⟨hadd, ?_, ?_, ?_, ?_⟩
  · cases h : add_click s ((seconds * 1000 + millis) % U32) with
    | error f =>
      rw [tap_of_add_click_error _ _ _ _ h]
      rw [h] at hadd
      intro hf
      cases hf
      exact hadd rfl
    | ok p =>
      obtain ⟨r, s1⟩ := p
      rw [tap_of_add_click_ok _ _ _ _ _ h]
      exact fun h => by cases h
  · intro s1 h
    rw [tap_of_add_click_ok _ _ _ _ _ h]
    exact ⟨rfl, (add_click_frame _ _ _ _ h).2.2.2.1⟩
  · intro r s1 h hr
    rw [tap_of_add_click_ok _ _ _ _ _ h, if_neg hr]
  · intro h0
    have hwf : WF s := ⟨harr, by rw [h0], by rw [h0]; simp [MAX_CLICKS]⟩
    obtain ⟨s1, e1, w1, h1, r1⟩ := add_click_step s ((seconds * 1000 + millis) % U32) hwf
    obtain ⟨s2, e2, w2, h2, r2⟩ := add_click_step s1 ((seconds * 1000 + millis) % U32) w1
    rw [history_of_empty s h0] at e1 h1
    rw [h1] at e2 h2
    have i1 : interval16 (push [] ((seconds * 1000 + millis) % U32)) = 0 := by
      simp [interval16, push, MAX_CLICKS]
    have i2 : interval16 (push (push [] ((seconds * 1000 + millis) % U32))
        ((seconds * 1000 + millis) % U32)) = 0 := by
      simp [interval16, push, MAX_CLICKS, sub32_self]
    rw [i1] at e1
    rw [i2] at e2
    have t1 := tap_of_add_click_ok _ _ _ _ _ e1
    have t2 := tap_of_add_click_ok _ _ _ _ _ e2
    simp only [if_true] at t1 t2
    refine ⟨s2, by simp only [run, step, t1, t2], r2.2.2.2.1.trans r1.2.2.2.1, ?_⟩
    have hl := history_length s2 w2
    rw [h2] at hl
    rw [← hl]
    simp [push, MAX_CLICKS]

/-- C7, witness: the initial state, two taps at the clock reading 7 s 250 ms. -/
theorem C7_tap_never_divides_by_zero_witness :
    init.tempo_times.length = MAX_CLICKS ∧
    (add_click init ((7 * 1000 + 250) % U32) ≠ .error .divByZero ∧
    tempo_single_click_handler init 7 250 ≠ .error .divByZero ∧
    (∀ s1, add_click init ((7 * 1000 + 250) % U32) = .ok (0, s1) →
      tempo_single_click_handler init 7 250 = .ok s1 ∧ s1.tempo_bpm = init.tempo_bpm) ∧
    (∀ r s1, add_click init ((7 * 1000 + 250) % U32) = .ok (r, s1) → r ≠ 0 →
      tempo_single_click_handler init 7 250 =
        .ok { s1 with tempo_bpm := Int.tdiv 60000 r }) ∧
    (init.tempo_clicks = 0 →
      ∃ s2, run init [Event.tap 7 250, Event.tap 7 250] = .ok s2 ∧
        s2.tempo_bpm = init.tempo_bpm ∧ s2.tempo_clicks = 2)) :=
  ⟨rfl, C7_tap_never_divides_by_zero init 7 250 rfl⟩

/-- C8: for every state whose candidate `tempo_bpm` is positive, `handle_tempo_disappear`
sets `metro_bpm` to exactly that candidate, with no clamping to `[10, 500]`; the taps at
0 ms and 100 ms give the candidate 600, and the exit commits 600, outside `[10, 500]`. -/
theorem C8_exit_commits_unclamped (s : State) (hc : 0 < s.tempo_bpm) :
    (handle_tempo_disappear s).metro_bpm = s.tempo_bpm ∧
    ∃ s1 s2, run init [Event.select, Event.tap 0 0, Event.tap 0 100] = .ok s1 ∧
      s1.tempo_bpm = 600 ∧ step s1 Event.exit_tap = .ok s2 ∧ s2.metro_bpm = 600 ∧
      ¬ (10 ≤ s2.metro_bpm ∧ s2.metro_bpm ≤ 500) := by
  constructor
  · unfold handle_tempo_disappear
    simp only [gt_iff_lt, hc, if_true]
  · refine ⟨_, _, rfl, ?_, rfl, ?_, ?_⟩ <;> decide

/-- C8, witness: a state with the candidate 600. -/
theorem C8_exit_commits_unclamped_witness :
    0 < ({ init with tempo_bpm := 600 } : State).tempo_bpm ∧
    ((handle_tempo_disappear { init with tempo_bpm := 600 }).metro_bpm =
        ({ init with tempo_bpm := 600 } : State).tempo_bpm ∧
      ∃ s1 s2, run init [Event.select, Event.tap 0 0, Event.tap 0 100] = .ok s1 ∧
        s1.tempo_bpm = 600 ∧ step s1 Event.exit_tap = .ok s2 ∧ s2.metro_bpm = 600 ∧
        ¬ (10 ≤ s2.metro_bpm ∧ s2.metro_bpm ≤ 500)) :=
  ⟨by decide, C8_exit_commits_unclamped { init with tempo_bpm := 600 } (by decide)⟩

/-- C10: from any state with exactly one tick timer pending, after the select handler has
set `metro_running` to 0 and any further events other than `start` and a fire, the fire of
the pending timer returns, toggles the phase once and registers no timer: no timer is
pending afterwards.  From a well-formed state the events in between all return. -/
theorem C10_lazy_stop (s : State) (es : List Event) (hone : s.timers.length = 1)
    (hq : ∀ e ∈ es, e.quiet = true) :
    (WF s → ∃ s1, run (metro_select_single_click_handler s) es = .ok s1) ∧
    ∀ s1, run (metro_select_single_click_handler s) es = .ok s1 →
      ∃ s2, step s1 (Event.fire 0) = .ok s2 ∧
        s2.metro_tock = (if s.metro_tock = 0 then 1 else 0) ∧
        s2.timers = [] ∧ s2.metro_running = 0 := by
  constructor
  · intro hwf
    exact run_quiet_WF es _ hwf hq
  · intro s1 hr
    obtain ⟨f1, f2, f3⟩ := run_quiet_frame es _ s1 hq hr
    have ht : s1.timers.length = 1 := by rw [f1]; exact hone
    have hrun0 : s1.metro_running = 0 := f3 rfl
    have htock : s1.metro_tock = s.metro_tock := f2
    obtain ⟨d, hd⟩ : ∃ d, s1.timers = [d] := by
      match hl : s1.timers, ht with
      | [d], _ => exact ⟨d, rfl⟩
    refine ⟨{ s1 with timers := [], metro_tock := if s1.metro_tock = 0 then 1 else 0 }, ?_,
      by simp only [htock], rfl, hrun0⟩
    simp [step, hd, handle_tick_timer, hrun0]

/-- C10, witness: the metronome runs with one timer pending; select, two taps, the exit
from the tempo window (no new start), then the pending timer fires. -/
theorem C10_lazy_stop_witness :
    ({ init with timers := [1000] } : State).timers.length = 1 ∧
    (∀ e ∈ [Event.tap 0 0, Event.tap 0 500, Event.exit_tap], e.quiet = true) ∧
    ((WF { init with timers := [1000] } →
      ∃ s1, run (metro_select_single_click_handler { init with timers := [1000] })
        [Event.tap 0 0, Event.tap 0 500, Event.exit_tap] = .ok s1) ∧
    ∀ s1, run (metro_select_single_click_handler { init with timers := [1000] })
        [Event.tap 0 0, Event.tap 0 500, Event.exit_tap] = .ok s1 →
      ∃ s2, step s1 (Event.fire 0) = .ok s2 ∧
        s2.metro_tock = (if ({ init with timers := [1000] } : State).metro_tock = 0
          then 1 else 0) ∧
        s2.timers = [] ∧ s2.metro_running = 0) :=
  ⟨rfl, by decide,
    C10_lazy_stop { init with timers := [1000] }
      [Event.tap 0 0, Event.tap 0 500, Event.exit_tap] rfl (by decide)⟩

/-! ## Taps at a fixed interval -/

theorem intervals_length (ts : List Nat) : ∀ w, (intervals w ts).length = ts.length := by
  induction ts with
  | nil => intro w; rfl
  | cons t ts ih => intro w; simp only [intervals, List.length_cons, ih]

theorem intervals_getElem? (ts : List Nat) : ∀ (w : List Nat) (k : Nat), k < ts.length →
    (intervals w ts)[k]? = some (interval16 ((ts.take (k + 1)).foldl push w)) := by
  induction ts with
  | nil => intro w k hk; simp at hk
  | cons t ts ih =>
    intro w k hk
    cases k with
    | zero => simp [intervals]
    | succ k =>
      simp only [intervals, List.getElem?_cons_succ, List.take_succ_cons, List.foldl_cons]
      exact ih _ k (by simpa using hk)

theorem fixed_taps_take (t0 d n m : Nat) (h : m ≤ n) :
    (fixed_taps t0 d n).take m = fixed_taps t0 d m := by
  unfold fixed_taps
  rw [← List.map_take, List.take_range, min_eq_left h]

theorem range_drop_five (j : Nat) :
    (List.range (j + 5)).drop j = [j, j + 1, j + 2, j + 3, j + 4] := by
  have : List.range (j + 5) = List.range j ++ [j, j + 1, j + 2, j + 3, j + 4] := by
    simp [List.range_succ]
  rw [this, List.drop_left' (List.length_range j)]

theorem sub32_add (a b : Nat) (hb : b < U32) : sub32 ((a + b) % U32) (a % U32) = b := by
  unfold sub32 U32 at *
  omega

theorem interval_of_span (a m d : Nat) (hm : 1 ≤ m) (hm4 : m ≤ 4) (hd : d < U16) :
    (sub32 ((a + m * d) % U32) (a % U32) / m) % U16 = d := by
  have hlt : m * d < U32 := by
    have : m * d ≤ 4 * d := Nat.mul_le_mul_right d hm4
    unfold U32; unfold U16 at hd; omega
  rw [sub32_add _ _ hlt, Nat.mul_div_cancel_left d (by omega), Nat.mod_eq_of_lt hd]

theorem interval16_fixed (t0 d k : Nat) (hd : d < U16) (hk : 1 ≤ k) :
    interval16 (window (fixed_taps t0 d (k + 1))) = d := by
  have hk4 : k = 1 ∨ k = 2 ∨ k = 3 ∨ 4 ≤ k := by omega
  rcases hk4 with rfl | rfl | rfl | h4
  · have h := interval_of_span (t0 + 0 * d) 1 d (by omega) (by omega) hd
    simpa [fixed_taps, window, interval16, MAX_CLICKS, List.range_succ] using h
  · have h := interval_of_span (t0 + 0 * d) 2 d (by omega) (by omega) hd
    simpa [fixed_taps, window, interval16, MAX_CLICKS, List.range_succ] using h
  · have h := interval_of_span (t0 + 0 * d) 3 d (by omega) (by omega) hd
    simpa [fixed_taps, window, interval16, MAX_CLICKS, List.range_succ] using h
  · obtain ⟨j, rfl⟩ : ∃ j, k = j + 4 := ⟨k - 4, by omega⟩
    have hw : window (fixed_taps t0 d (j + 4 + 1)) =
        [j, j + 1, j + 2, j + 3, j + 4].map (fun k => (t0 + k * d) % U32) := by
      unfold window fixed_taps
      rw [List.length_map, List.length_range, ← List.map_drop]
      have : j + 4 + 1 - MAX_CLICKS = j := by simp [MAX_CLICKS]
      rw [this, range_drop_five]
    rw [hw]
    have e : t0 + (j + 4) * d = t0 + j * d + 4 * d := by ring
    have h := interval_of_span (t0 + j * d) 4 d (by omega) (by omega) hd
    rw [← e] at h
    simpa [interval16] using h

/-- C9 (amended): for every start time `t0`, every fixed interval `d` below 65536 ms and
every `n`, recording the taps `t0, t0 + d, ..., t0 + (n-1) * d` (as 32-bit clock readings)
into an empty history traps nowhere, and every call of `add_click` from the 2nd tap on
returns `d` exactly. -/
theorem C9_fixed_interval_returns_d (s : State) (t0 d n : Nat) (hwf : WF s)
    (hempty : s.tempo_clicks = 0) (hd : d < U16) :
    ∃ rs s1, add_clicks s (fixed_taps t0 d n) = .ok (rs, s1) ∧ rs.length = n ∧
      ∀ k, 1 ≤ k → k < n → rs[k]? = some d := by
  obtain ⟨s1, e1, _, _, _⟩ := add_clicks_spec (fixed_taps t0 d n) s hwf
  rw [history_of_empty s hempty] at e1
  have hlen : (fixed_taps t0 d n).length = n := by simp [fixed_taps]
  refine ⟨_, s1, e1, by rw [intervals_length, hlen], ?_⟩
  intro k hk1 hkn
  rw [intervals_getElem? _ _ k (by rw [hlen]; exact hkn), foldl_push_nil,
    fixed_taps_take t0 d n (k + 1) (by omega), interval16_fixed t0 d k hd hk1]

/-- C9, witness: six taps 500 ms apart, starting 300 ms before the 32-bit clock wraps. -/
theorem C9_fixed_interval_returns_d_witness :
    WF init ∧ init.tempo_clicks = 0 ∧ 500 < U16 ∧
    ∃ rs s1, add_clicks init (fixed_taps 4294966996 500 6) = .ok (rs, s1) ∧ rs.length = 6 ∧
      ∀ k, 1 ≤ k → k < 6 → rs[k]? = some 500 :=
  ⟨by decide, rfl, by decide,
    C9_fixed_interval_returns_d init 4294966996 500 6 (by decide) rfl (by decide)⟩

/-- C9, counterexample to the claim as stated: the taps 1000, 66536, 132072 (start 1000 ms,
interval 65536 ms, 3 taps) recorded into the empty history of the initial state.  Every
call returns 0; no returned value is within 1 of 65536. -/
theorem C9_counterexample :
    fixed_taps 1000 65536 3 = [1000, 66536, 132072] ∧
    ∃ rs s1, add_clicks init (fixed_taps 1000 65536 3) = .ok (rs, s1) ∧ rs = [0, 0, 0] ∧
      ¬ ∃ r ∈ rs, 65536 ≤ r + 1 ∧ r ≤ 65536 + 1 := by
  refine ⟨by decide, _, _, rfl, rfl, ?_⟩
  decide

/-! ## Reset and clock translation -/

theorem WF_of_reset (s : State) (harr : s.tempo_times.length = MAX_CLICKS) :
    WF (handle_tempo_disappear s) ∧ (handle_tempo_disappear s).tempo_clicks = 0 := by
  unfold handle_tempo_disappear
  simp only
  split <;> exact ⟨⟨harr, le_refl _, by simp [MAX_CLICKS]⟩, rfl⟩

theorem sub32_shift (a b c : Nat) :
    sub32 ((a + c) % U32) ((b + c) % U32) = sub32 a b := by
  unfold sub32 U32
  omega

theorem push_map (f : Nat → Nat) (w : List Nat) (t : Nat) :
    push (w.map f) (f t) = (push w t).map f := by
  unfold push
  rw [List.length_map]
  split <;> simp [List.map_tail]

theorem interval16_shift (c : Nat) (w : List Nat) :
    interval16 (w.map (fun t => (t + c) % U32)) = interval16 w := by
  unfold interval16
  rw [List.length_map]
  split
  · rfl
  · rename_i h
    cases w with
    | nil => simp at h
    | cons a r =>
      have hl : ∀ (l : List Nat) (x : Nat),
          (l.map (fun t => (t + c) % U32)).getLastD ((x + c) % U32) =
            (l.getLastD x + c) % U32 := by
        intro l
        induction l with
        | nil => intro x; rfl
        | cons y l ih => intro x; simp only [List.map_cons, List.getLastD_cons]; exact ih y
      simp only [List.map_cons, List.getLastD_cons, List.headD_cons, hl, sub32_shift]

theorem intervals_shift (c : Nat) (ts : List Nat) : ∀ w : List Nat,
    intervals (w.map (fun t => (t + c) % U32)) (ts.map (fun t => (t + c) % U32)) =
      intervals w ts := by
  induction ts with
  | nil => intro w; rfl
  | cons t ts ih =>
    intro w
    simp only [List.map_cons, intervals]
    rw [push_map (fun t => (t + c) % U32) w t, interval16_shift, ih]

/-- C11: after the reset of `handle_tempo_disappear` (`tempo_clicks = 0`), whatever the
sample count was and whatever values stay in the `tempo_times` array, every tap sequence
is recorded without a trap and yields the same intervals and the same retained samples as
in the freshly initialised program; a single tap after the reset returns 0. -/
theorem C11_reset_matches_fresh (s : State) (ts : List Nat)
    (harr : s.tempo_times.length = MAX_CLICKS) :
    (handle_tempo_disappear s).tempo_clicks = 0 ∧
    (∃ rs s1 s2, add_clicks (handle_tempo_disappear s) ts = .ok (rs, s1) ∧
      add_clicks init ts = .ok (rs, s2) ∧ history s1 = history s2) ∧
    ∀ t, ∃ s3, add_click (handle_tempo_disappear s) t = .ok (0, s3) := by
  obtain ⟨hwf, h0⟩ := WF_of_reset s harr
  refine ⟨h0, ?_, ?_⟩
  · obtain ⟨s1, e1, _, h1, _⟩ := add_clicks_spec ts _ hwf
    obtain ⟨s2, e2, _, h2, _⟩ := add_clicks_spec ts init (by decide)
    rw [history_of_empty _ h0] at e1 h1
    rw [history_of_empty init rfl] at e2 h2
    exact ⟨_, s1, s2, e1, e2, h1.trans h2.symm⟩
  · intro t
    obtain ⟨s3, e3, _⟩ := add_click_step _ t hwf
    rw [history_of_empty _ h0] at e3
    exact ⟨s3, e3⟩

/-- C11, witness: a state with a full history of stale samples and a stale candidate. -/
theorem C11_reset_matches_fresh_witness :
    stale_state.tempo_times.length = MAX_CLICKS ∧
    ((handle_tempo_disappear stale_state).tempo_clicks = 0 ∧
    (∃ rs s1 s2, add_clicks (handle_tempo_disappear stale_state) [100, 700, 1300] =
        .ok (rs, s1) ∧
      add_clicks init [100, 700, 1300] = .ok (rs, s2) ∧ history s1 = history s2) ∧
    ∀ t, ∃ s3, add_click (handle_tempo_disappear stale_state) t = .ok (0, s3)) :=
  ⟨rfl, C11_reset_matches_fresh stale_state [100, 700, 1300] rfl⟩

/-- C12: for every tap whose `add_click` result is a non-zero interval `i`, the tap handler
returns and sets the candidate `tempo_bpm` to the integer quotient `60000 / i`, leaving the
rest of the state as `add_click` left it; for the taps at 0, 500, 1000 and 1500 ms from the
initial state the intervals are 0, 500, 500, 500 and the candidate is 120 after the 2nd
and after the 4th tap. -/
theorem C12_candidate_is_60000_div_interval (s : State) (seconds millis i : Nat) (s1 : State)
    (hadd : add_click s ((seconds * 1000 + millis) % U32) = .ok (i, s1)) (hi : i ≠ 0) :
    tempo_single_click_handler s seconds millis =
      .ok { s1 with tempo_bpm := ((60000 / i : Nat) : Int) } ∧
    (∃ s4, add_clicks init [0, 500, 1000, 1500] = .ok ([0, 500, 500, 500], s4)) ∧
    ∃ s2 s4, run init [Event.tap 0 0, Event.tap 0 500] = .ok s2 ∧ s2.tempo_bpm = 120 ∧
      run s2 [Event.tap 1 0, Event.tap 1 500] = .ok s4 ∧ s4.tempo_bpm = 120 := by
  refine ⟨?_, ⟨_, rfl⟩, _, _, rfl, by decide, rfl, by decide⟩
  rw [tap_of_add_click_ok _ _ _ _ _ hadd, if_neg hi]
  rfl

/-- C12, witness: the second tap, 500 ms after the first one. -/
theorem C12_candidate_is_60000_div_interval_witness :
    add_click { init with tempo_clicks := 1 } ((0 * 1000 + 500) % U32) =
      .ok (500, { init with tempo_clicks := 2, tempo_times := [0, 500, 0, 0, 0] }) ∧
    500 ≠ 0 ∧
    (tempo_single_click_handler { init with tempo_clicks := 1 } 0 500 =
      .ok { ({ init with tempo_clicks := 2, tempo_times := [0, 500, 0, 0, 0] } : State) with
        tempo_bpm := ((60000 / 500 : Nat) : Int) } ∧
    (∃ s4, add_clicks init [0, 500, 1000, 1500] = .ok ([0, 500, 500, 500], s4)) ∧
    ∃ s2 s4, run init [Event.tap 0 0, Event.tap 0 500] = .ok s2 ∧ s2.tempo_bpm = 120 ∧
      run s2 [Event.tap 1 0, Event.tap 1 500] = .ok s4 ∧ s4.tempo_bpm = 120) :=
  ⟨rfl, by decide,
    C12_candidate_is_60000_div_interval { init with tempo_clicks := 1 } 0 500 500
      { init with tempo_clicks := 2, tempo_times := [0, 500, 0, 0, 0] } rfl (by decide)⟩

/-- C17: `add_click` is invariant under a translation of the clock modulo `2^32`: for
every offset `c` and every tap sequence recorded into an empty history, the sequence with
every tap replaced by `(t + c) mod 2^32` is recorded without a trap and returns the same
intervals. -/
theorem C17_clock_translation_invariant (s : State) (c : Nat) (ts : List Nat)
    (hwf : WF s) (hempty : s.tempo_clicks = 0) :
    ∃ rs s1 s2, add_clicks s ts = .ok (rs, s1) ∧
      add_clicks s (ts.map (fun t => (t + c) % U32)) = .ok (rs, s2) := by
  obtain ⟨s1, e1, _⟩ := add_clicks_spec ts s hwf
  obtain ⟨s2, e2, _⟩ := add_clicks_spec (ts.map (fun t => (t + c) % U32)) s hwf
  rw [history_of_empty s hempty] at e1 e2
  have h := intervals_shift c ts []
  simp only [List.map_nil] at h
  rw [h] at e2
  exact ⟨_, s1, s2, e1, e2⟩

/-- C17, witness: the taps 0, 500, 1000 moved by `2^32 - 500`, so that the clock wraps
between the first and the second tap. -/
theorem C17_clock_translation_invariant_witness :
    WF init ∧ init.tempo_clicks = 0 ∧
    [0, 500, 1000].map (fun t => (t + 4294966796) % U32) = [4294966796, 0, 500] ∧
    ∃ rs s1 s2, add_clicks init [0, 500, 1000] = .ok (rs, s1) ∧
      add_clicks init ([0, 500, 1000].map (fun t => (t + 4294966796) % U32)) = .ok (rs, s2) :=
  ⟨by decide, rfl, by decide,
    C17_clock_translation_invariant init 4294966796 [0, 500, 1000] (by decide) rfl⟩

/-! ## Rounding of the estimate -/

theorem mem_push (w : List Nat) (t x : Nat) (h : x ∈ push w t) : x ∈ w ∨ x = t := by
  unfold push at h
  split at h
  · rcases List.mem_append.mp h with h1 | h1
    · exact Or.inl (List.mem_of_mem_tail h1)
    · exact Or.inr (by simpa using h1)
  · rcases List.mem_append.mp h with h1 | h1
    · exact Or.inl h1
    · exact Or.inr (by simpa using h1)

theorem headD_mem (w : List Nat) (h : w ≠ []) : w.headD 0 ∈ w := by
  cases w with
  | nil => exact absurd rfl h
  | cons a r => exact List.mem_cons_self _ _

theorem push_length_ge (w : List Nat) (t : Nat) (h1 : 1 ≤ w.length) (h5 : w.length ≤ MAX_CLICKS) :
    2 ≤ (push w t).length := by
  unfold push
  simp only [MAX_CLICKS] at *
  split <;> simp <;> omega

theorem sub32_of_le (a b : Nat) (hab : b ≤ a) (ha : a < U32) : sub32 a b = a - b := by
  unfold sub32 U32 at *
  omega

/-- C13 (amended): for every well-formed history with at least one sample, none of them
later than the new 32-bit tap `t`, `add_click` returns (count is then at least 2) the exact
rational average `(newest - oldest) / (count - 1)` rounded down to an integer number of
milliseconds, reduced modulo `2^16`; it is the rounded-down average itself whenever that
is below 65536. -/
theorem C13_estimate_is_average_rounded_down (s : State) (t : Nat) (hwf : WF s)
    (hcount : 1 ≤ s.tempo_clicks) (ht : t < U32) (hmono : ∀ x ∈ history s, x ≤ t) :
    ∃ r s1, add_click s t = .ok (r, s1) ∧ 2 ≤ (history s1).length ∧
      (history s1).getLastD 0 = t ∧
      r = ⌊(((t - (history s1).headD 0 : Nat) : ℚ) /
            (((history s1).length - 1 : Nat) : ℚ))⌋₊ % U16 ∧
      (⌊(((t - (history s1).headD 0 : Nat) : ℚ) /
            (((history s1).length - 1 : Nat) : ℚ))⌋₊ < U16 →
        r = ⌊(((t - (history s1).headD 0 : Nat) : ℚ) /
            (((history s1).length - 1 : Nat) : ℚ))⌋₊) := by
  obtain ⟨s1, e1, _, h1, _⟩ := add_click_step s t hwf
  have hlen := history_length s hwf
  have hl1 : 1 ≤ (history s).length := by omega
  have hl5 : (history s).length ≤ MAX_CLICKS := by
    have := hwf.2.2
    omega
  have h2 : 2 ≤ (push (history s) t).length := push_length_ge _ t hl1 hl5
  have hne : push (history s) t ≠ [] := by
    intro h; rw [h] at h2; simp at h2
  have hhead : (push (history s) t).headD 0 ≤ t := by
    rcases mem_push _ _ _ (headD_mem _ hne) with h | h
    · exact hmono _ h
    · exact le_of_eq h
  have hval : interval16 (push (history s) t) =
      ((t - (push (history s) t).headD 0) / ((push (history s) t).length - 1)) % U16 := by
    unfold interval16
    rw [if_neg (by omega), push_getLastD, sub32_of_le _ _ hhead ht]
  refine ⟨_, s1, e1, by rw [h1]; exact h2, by rw [h1]; exact push_getLastD _ _, ?_, ?_⟩
  · rw [h1, Nat.floor_div_eq_div]; exact hval
  · rw [h1, Nat.floor_div_eq_div, hval]
    intro hlt
    exact Nat.mod_eq_of_lt hlt

/-- C13, witness: the samples 0, 1, 2 and the new tap 5. -/
theorem C13_estimate_is_average_rounded_down_witness :
    WF { init with tempo_clicks := 3, tempo_times := [0, 1, 2, 0, 0] } ∧
    1 ≤ ({ init with tempo_clicks := 3, tempo_times := [0, 1, 2, 0, 0] } : State).tempo_clicks ∧
    5 < U32 ∧
    (∀ x ∈ history { init with tempo_clicks := 3, tempo_times := [0, 1, 2, 0, 0] }, x ≤ 5) ∧
    ∃ r s1, add_click { init with tempo_clicks := 3, tempo_times := [0, 1, 2, 0, 0] } 5 =
        .ok (r, s1) ∧
      2 ≤ (history s1).length ∧ (history s1).getLastD 0 = 5 ∧
      r = ⌊(((5 - (history s1).headD 0 : Nat) : ℚ) /
            (((history s1).length - 1 : Nat) : ℚ))⌋₊ % U16 ∧
      (⌊(((5 - (history s1).headD 0 : Nat) : ℚ) /
            (((history s1).length - 1 : Nat) : ℚ))⌋₊ < U16 →
        r = ⌊(((5 - (history s1).headD 0 : Nat) : ℚ) /
            (((history s1).length - 1 : Nat) : ℚ))⌋₊) :=
  ⟨by decide, by decide, by decide, by decide,
    C13_estimate_is_average_rounded_down
      { init with tempo_clicks := 3, tempo_times := [0, 1, 2, 0, 0] } 5
      (by decide) (by decide) (by decide) (by decide)⟩

/-- C13, counterexample to the claim as stated: the taps 0, 1, 2, 5 recorded from the
initial state.  At the 4th tap the history holds 4 samples, the exact average is `5 / 3`,
the nearest integer is 2, and `add_click` returns 1, which is farther than `1 / 2` from the
average. -/
theorem C13_counterexample :
    ∃ s1 r s2, add_clicks init [0, 1, 2] = .ok ([0, 1, 1], s1) ∧
      add_click s1 5 = .ok (r, s2) ∧ history s2 = [0, 1, 2, 5] ∧ r = 1 ∧
      round (((5 - 0 : Nat) : ℚ) / ((4 - 1 : Nat) : ℚ)) = 2 ∧
      (r : ℤ) ≠ round (((5 - 0 : Nat) : ℚ) / ((4 - 1 : Nat) : ℚ)) ∧
      ¬ |(r : ℚ) - ((5 - 0 : Nat) : ℚ) / ((4 - 1 : Nat) : ℚ)| ≤ 1 / 2 := by
  have hr : round (((5 - 0 : Nat) : ℚ) / ((4 - 1 : Nat) : ℚ)) = 2 := by
    rw [round_eq, Int.floor_eq_iff]; norm_num
  refine ⟨_, 1, _, rfl, rfl, by decide, rfl, hr, ?_, ?_⟩
  · rw [hr]; decide
  · rw [abs_le]; norm_num

/-! ## Invariants of the reachable states -/

theorem delay_bounds (b : Int) (h1 : 1 ≤ b) (h2 : b ≤ 60000) :
    1 ≤ 60000 / b.toNat ∧ 60000 / b.toNat ≤ 60000 := by
  have hn : 1 ≤ b.toNat ∧ b.toNat ≤ 60000 := by omega
  exact ⟨Nat.div_pos hn.2 (by omega), Nat.div_le_self _ _⟩

theorem tdiv_60000 (r : Nat) : Int.tdiv 60000 (r : Int) = ((60000 / r : Nat) : Int) :=
  (Int.ofNat_tdiv 60000 r).symm

theorem schedule_tick_Inv (s : State) (h : Inv s) :
    ∃ s1, schedule_tick s = .ok s1 ∧ Inv s1 ∧ s1.metro_tock = s.metro_tock ∧
      s1.timers = s.timers ++ [60000 / s.metro_bpm.toNat] := by
  obtain ⟨hwf, b1, b2, c1, c2, ht, hd⟩ := h
  refine ⟨_, schedule_tick_pos s (by omega), ⟨hwf, b1, b2, c1, c2, ht, ?_⟩, rfl, rfl⟩
  intro d hmem
  rcases List.mem_append.mp hmem with h | h
  · exact hd d h
  · have : d = 60000 / s.metro_bpm.toNat := by simpa using h
    rw [this]; exact delay_bounds _ b1 b2

theorem handle_tick_timer_Inv (s : State) (h : Inv s) :
    ∃ s1, handle_tick_timer s = .ok s1 ∧ Inv s1 ∧ s1.metro_tock = 1 - s.metro_tock := by
  obtain ⟨hwf, b1, b2, c1, c2, ht, hd⟩ := h
  have htog : (if s.metro_tock = 0 then (1 : Int) else 0) = 1 - s.metro_tock := by
    rcases ht with h | h <;> rw [h] <;> rfl
  have hinv : Inv { s with metro_tock := if s.metro_tock = 0 then 1 else 0 } := by
    refine ⟨hwf, b1, b2, c1, c2, ?_, hd⟩
    simp only
    split
    · exact Or.inr rfl
    · exact Or.inl rfl
  unfold handle_tick_timer
  simp only
  split
  · obtain ⟨s1, e1, i1, t1, _⟩ := schedule_tick_Inv _ hinv
    exact ⟨s1, e1, i1, by rw [t1]; exact htog⟩
  · exact ⟨_, rfl, hinv, htog⟩

theorem tap_Inv (s : State) (seconds millis : Nat) (h : Inv s) :
    ∃ s1, tempo_single_click_handler s seconds millis = .ok s1 ∧ Inv s1 := by
  obtain ⟨hwf, b1, b2, c1, c2, ht, hd⟩ := h
  obtain ⟨sa, e1, w1, _, r1, r2, r3, r4, r5⟩ :=
    add_click_step s ((seconds * 1000 + millis) % U32) hwf
  refine ⟨_, tap_of_add_click_ok _ _ _ _ _ e1, ?_⟩
  split
  · exact ⟨w1, by rw [r2]; exact b1, by rw [r2]; exact b2, by rw [r4]; exact c1,
      by rw [r4]; exact c2, by rw [r3]; exact ht, by rw [r5]; exact hd⟩
  · refine ⟨w1, by simp only [r2]; exact b1, by simp only [r2]; exact b2, ?_, ?_,
      by simp only [r3]; exact ht, by simp only [r5]; exact hd⟩
    · simp only
      rw [tdiv_60000]
      exact Int.ofNat_nonneg _
    · simp only
      rw [tdiv_60000]
      exact_mod_cast Nat.div_le_self 60000 _

theorem step_Inv (s : State) (e : Event) (h : Inv s) :
    ∃ s1, step s e = .ok s1 ∧ Inv s1 := by
  cases e with
  | start =>
    obtain ⟨hwf, b1, b2, c1, c2, ht, hd⟩ := h
    obtain ⟨s1, e1, i1, _⟩ :=
      schedule_tick_Inv { s with metro_running := 1 } ⟨hwf, b1, b2, c1, c2, ht, hd⟩
    exact ⟨s1, e1, i1⟩
  | fire k =>
    simp only [step]
    split
    · obtain ⟨hwf, b1, b2, c1, c2, ht, hd⟩ := h
      obtain ⟨s1, e1, i1, _⟩ := handle_tick_timer_Inv { s with timers := s.timers.eraseIdx k }
        ⟨hwf, b1, b2, c1, c2, ht, fun d hm => hd d (List.mem_of_mem_eraseIdx hm)⟩
      exact ⟨s1, e1, i1⟩
    · exact ⟨s, rfl, h⟩
  | select => exact ⟨_, rfl, h⟩
  | tap seconds millis => exact tap_Inv s seconds millis h
  | exit_tap =>
    obtain ⟨⟨hl, _, _⟩, b1, b2, c1, c2, ht, hd⟩ := h
    refine ⟨_, rfl, ?_⟩
    unfold handle_tempo_disappear
    simp only
    split
    · rename_i hpos
      exact ⟨⟨hl, le_refl _, by simp [MAX_CLICKS]⟩, by simp only; omega, c2, c1, c2, ht, hd⟩
    · exact ⟨⟨hl, le_refl _, by simp [MAX_CLICKS]⟩, b1, b2, c1, c2, ht, hd⟩
  | up =>
    obtain ⟨hwf, b1, b2, c1, c2, ht, hd⟩ := h
    refine ⟨_, rfl, ?_⟩
    unfold metro_up_single_click_handler MAX_TEMPO
    split
    · exact ⟨hwf, by simp only; omega, by simp only; omega, c1, c2, ht, hd⟩
    · exact ⟨hwf, b1, b2, c1, c2, ht, hd⟩
  | down =>
    obtain ⟨hwf, b1, b2, c1, c2, ht, hd⟩ := h
    refine ⟨_, rfl, ?_⟩
    unfold metro_down_single_click_handler MIN_TEMPO
    split
    · exact ⟨hwf, by simp only; omega, by simp only; omega, c1, c2, ht, hd⟩
    · exact ⟨hwf, b1, b2, c1, c2, ht, hd⟩

theorem run_Inv (es : List Event) : ∀ s : State, Inv s →
    ∃ s1, run s es = .ok s1 ∧ Inv s1 := by
  induction es with
  | nil => intro s h; exact ⟨s, rfl, h⟩
  | cons e es ih =>
    intro s h
    obtain ⟨sa, e1, i1⟩ := step_Inv s e h
    obtain ⟨s1, e2, i2⟩ := ih sa i1
    exact ⟨s1, by simp only [run, e1, e2], i2⟩

theorem init_Inv : Inv init := by
  refine ⟨by decide, by decide, by decide, by decide, by decide, Or.inl rfl, ?_⟩
  intro d hd
  simp [init] at hd

theorem Reachable_Inv (s : State) (h : Reachable s) : Inv s := by
  obtain ⟨es, hr⟩ := h
  obtain ⟨s1, e1, i1⟩ := run_Inv es init init_Inv
  rw [e1] at hr
  cases hr
  exact i1

theorem step_tock (s : State) (e : Event) (s1 : State) (h : step s e = .ok s1)
    (hne : ∀ k, e ≠ Event.fire k) : s1.metro_tock = s.metro_tock := by
  cases e with
  | start =>
    obtain ⟨d, rfl⟩ := schedule_tick_ok _ _ h
    rfl
  | fire k => exact absurd rfl (hne k)
  | select => exact ((step_timers s _ s1 h).2.2 rfl).2.1
  | tap seconds millis => exact ((step_timers s _ s1 h).2.2 rfl).2.1
  | exit_tap => exact ((step_timers s _ s1 h).2.2 rfl).2.1
  | up => exact ((step_timers s _ s1 h).2.2 rfl).2.1
  | down => exact ((step_timers s _ s1 h).2.2 rfl).2.1

/-- C15: in every reachable state the phase `metro_tock` is 0 or 1; the timer callback
returns and replaces it by `1 - metro_tock`, whether the metronome runs or not, and a second
callback restores it; the fire of any pending timer does so; no event other than a fire
changes it. -/
theorem C15_tock_toggles_once_per_fire (s : State) (h : Reachable s) :
    (s.metro_tock = 0 ∨ s.metro_tock = 1) ∧
    (∃ s1, handle_tick_timer s = .ok s1 ∧ s1.metro_tock = 1 - s.metro_tock ∧
      ∃ s2, handle_tick_timer s1 = .ok s2 ∧ s2.metro_tock = s.metro_tock) ∧
    (∀ k, k < s.timers.length →
      ∃ s1, step s (Event.fire k) = .ok s1 ∧ s1.metro_tock = 1 - s.metro_tock) ∧
    (∀ e s1, (∀ k, e ≠ Event.fire k) → step s e = .ok s1 → s1.metro_tock = s.metro_tock) := by
  have hinv := Reachable_Inv s h
  refine ⟨hinv.2.2.2.2.2.1, ?_, ?_, ?_⟩
  · obtain ⟨s1, e1, i1, t1⟩ := handle_tick_timer_Inv s hinv
    obtain ⟨s2, e2, _, t2⟩ := handle_tick_timer_Inv s1 i1
    exact ⟨s1, e1, t1, s2, e2, by rw [t2, t1]; omega⟩
  · intro k hk
    obtain ⟨hwf, b1, b2, c1, c2, ht, hd⟩ := hinv
    obtain ⟨s1, e1, _, t1⟩ := handle_tick_timer_Inv { s with timers := s.timers.eraseIdx k }
      ⟨hwf, b1, b2, c1, c2, ht, fun d hm => hd d (List.mem_of_mem_eraseIdx hm)⟩
    exact ⟨s1, by simp only [step, hk, if_true]; exact e1, t1⟩
  · intro e s1 hne hs
    exact step_tock s e s1 hs hne

/-- C15, witness: the state after a start and one fire (phase 1, one timer pending). -/
theorem C15_tock_toggles_once_per_fire_witness :
    Reachable ticking_state ∧
    ((ticking_state.metro_tock = 0 ∨ ticking_state.metro_tock = 1) ∧
    (∃ s1, handle_tick_timer ticking_state = .ok s1 ∧
      s1.metro_tock = 1 - ticking_state.metro_tock ∧
      ∃ s2, handle_tick_timer s1 = .ok s2 ∧ s2.metro_tock = ticking_state.metro_tock) ∧
    (∀ k, k < ticking_state.timers.length →
      ∃ s1, step ticking_state (Event.fire k) = .ok s1 ∧
        s1.metro_tock = 1 - ticking_state.metro_tock) ∧
    (∀ e s1, (∀ k, e ≠ Event.fire k) → step ticking_state e = .ok s1 →
      s1.metro_tock = ticking_state.metro_tock)) :=
  ⟨⟨[Event.start, Event.fire 0], rfl⟩,
    C15_tock_toggles_once_per_fire ticking_state ⟨[Event.start, Event.fire 0], rfl⟩⟩

/-- C16: in every state reachable from the initial state by any sequence of events with
arbitrary clock readings, `1 ≤ metro_bpm ≤ 60000`; `schedule_tick` does not divide by zero
and registers a delay `60000 / metro_bpm` between 1 and 60000 ms; every pending timer has
such a delay; and every further event sequence runs without a trap. -/
theorem C16_metro_bpm_between_1_and_60000 (s : State) (h : Reachable s) :
    1 ≤ s.metro_bpm ∧ s.metro_bpm ≤ 60000 ∧
    (∃ s1, schedule_tick s = .ok s1 ∧ s1.timers = s.timers ++ [60000 / s.metro_bpm.toNat]) ∧
    (1 ≤ 60000 / s.metro_bpm.toNat ∧ 60000 / s.metro_bpm.toNat ≤ 60000) ∧
    (∀ d ∈ s.timers, 1 ≤ d ∧ d ≤ 60000) ∧
    (∀ es, ∃ s1, run s es = .ok s1) := by
  have hinv := Reachable_Inv s h
  obtain ⟨s1, e1, _, _, t1⟩ := schedule_tick_Inv s hinv
  refine ⟨hinv.2.1, hinv.2.2.1, ⟨s1, e1, t1⟩, delay_bounds _ hinv.2.1 hinv.2.2.1,
    hinv.2.2.2.2.2.2, ?_⟩
  intro es
  obtain ⟨s2, e2, _⟩ := run_Inv es s hinv
  exact ⟨s2, e2⟩

/-- C16, witness: the taps at 0 ms and 1 ms commit 60000 BPM, the upper bound. -/
theorem C16_metro_bpm_between_1_and_60000_witness :
    Reachable fastest_state ∧
    (1 ≤ fastest_state.metro_bpm ∧ fastest_state.metro_bpm ≤ 60000 ∧
    (∃ s1, schedule_tick fastest_state = .ok s1 ∧
      s1.timers = fastest_state.timers ++ [60000 / fastest_state.metro_bpm.toNat]) ∧
    (1 ≤ 60000 / fastest_state.metro_bpm.toNat ∧
      60000 / fastest_state.metro_bpm.toNat ≤ 60000) ∧
    (∀ d ∈ fastest_state.timers, 1 ≤ d ∧ d ≤ 60000) ∧
    (∀ es, ∃ s1, run fastest_state es = .ok s1)) :=
  ⟨⟨[Event.select, Event.tap 0 0, Event.tap 0 1, Event.exit_tap], rfl⟩,
    C16_metro_bpm_between_1_and_60000 fastest_state
      ⟨[Event.select, Event.tap 0 0, Event.tap 0 1, Event.exit_tap], rfl⟩⟩

/-! ## The window wiring -/

theorem WF_congr (s s1 : State) (hc : s1.tempo_clicks = s.tempo_clicks)
    (ht : s1.tempo_times = s.tempo_times) (h : WF s) : WF s1 := by
  unfold WF at *
  rw [hc, ht]
  exact h

/-- Events other than a tap and the exit from the tempo window leave the history alone. -/
theorem step_tempo_frame (s : State) (e : Event) (s1 : State) (hs : step s e = .ok s1)
    (ht : ∀ a b, e ≠ Event.tap a b) (hx : e ≠ Event.exit_tap) :
    s1.tempo_clicks = s.tempo_clicks ∧ s1.tempo_times = s.tempo_times := by
  cases e with
  | start =>
    obtain ⟨d, rfl⟩ := schedule_tick_ok _ _ hs
    exact ⟨rfl, rfl⟩
  | fire k =>
    simp only [step] at hs
    split at hs
    · unfold handle_tick_timer at hs
      simp only at hs
      split at hs
      · obtain ⟨d, rfl⟩ := schedule_tick_ok _ _ hs
        exact ⟨rfl, rfl⟩
      · cases hs; exact ⟨rfl, rfl⟩
    · cases hs; exact ⟨rfl, rfl⟩
  | select => cases hs; exact ⟨rfl, rfl⟩
  | tap a b => exact absurd rfl (ht a b)
  | exit_tap => exact absurd rfl hx
  | up =>
    cases hs
    unfold metro_up_single_click_handler
    split <;> exact ⟨rfl, rfl⟩
  | down =>
    cases hs
    unfold metro_down_single_click_handler
    split <;> exact ⟨rfl, rfl⟩

theorem step_PhaseInv (p q : Phase) (s s1 : State) (e : Event) (h : PhaseInv p s)
    (hn : p.next e = some q) (hs : step s e = .ok s1) : PhaseInv q s1 := by
  obtain ⟨hwf, h0⟩ := h
  by_cases htap : ∃ a b, e = Event.tap a b
  · obtain ⟨a, b, rfl⟩ := htap
    cases p <;> simp [Phase.next] at hn
    subst hn
    obtain ⟨s2, e2, w2⟩ := tap_WF s a b hwf
    simp only [step] at hs
    rw [e2] at hs
    cases hs
    exact ⟨w2, fun hne => absurd rfl hne⟩
  · by_cases hx : e = Event.exit_tap
    · subst hx
      cases p <;> simp [Phase.next] at hn
      subst hn
      cases hs
      have hr := WF_of_reset s hwf.1
      exact ⟨hr.1, fun _ => hr.2⟩
    · have hfr := step_tempo_frame s e s1 hs (fun a b he => htap ⟨a, b, he⟩) hx
      refine ⟨WF_congr s s1 hfr.1 hfr.2 hwf, ?_⟩
      intro hq
      rw [hfr.1]
      apply h0
      intro hp
      subst hp
      cases e with
      | start => simp [Phase.next] at hn
      | fire k =>
        simp only [Phase.next, Option.some.injEq] at hn
        exact hq hn.symm
      | select => simp [Phase.next] at hn
      | tap a b => exact htap ⟨a, b, rfl⟩
      | exit_tap => exact hx rfl
      | up => simp [Phase.next] at hn
      | down => simp [Phase.next] at hn

theorem run_PhaseInv (es : List Event) : ∀ (p q : Phase) (s s1 : State), PhaseInv p s →
    phase_after p es = some q → run s es = .ok s1 → PhaseInv q s1 := by
  induction es with
  | nil =>
    intro p q s s1 h hp hr
    cases hp; cases hr; exact h
  | cons e es ih =>
    intro p q s s1 h hp hr
    simp only [phase_after] at hp
    simp only [run] at hr
    split at hp
    · cases hp
    · rename_i p1 hp1
      split at hr
      · cases hr
      · rename_i sa hsa
        exact ih p1 q sa s1 (step_PhaseInv p p1 s sa e h hp1 hsa) hp hr

/-- C14: in every state reached from the initial state by events delivered as the window
wiring allows, with the metronome window on top, the select handler leaves `metro_running`
at 0 and the tap history empty (`tempo_clicks = 0`); so the first tap of the session
returns the interval 0 and leaves the candidate as it was, and every tap sequence of the
session yields the intervals and the retained samples of a freshly initialised program:
no tap of an earlier session takes part in them. -/
theorem C14_history_empty_on_entering_tap_mode (es : List Event) (s : State)
    (hwire : phase_after Phase.boot es = some Phase.metro) (hrun : run init es = .ok s) :
    step s Event.select = .ok (metro_select_single_click_handler s) ∧
    (metro_select_single_click_handler s).metro_running = 0 ∧
    (metro_select_single_click_handler s).tempo_clicks = 0 ∧
    history (metro_select_single_click_handler s) = [] ∧
    (∀ seconds millis, ∃ s1,
      add_click (metro_select_single_click_handler s) ((seconds * 1000 + millis) % U32) =
        .ok (0, s1) ∧
      tempo_single_click_handler (metro_select_single_click_handler s) seconds millis =
        .ok s1 ∧
      s1.tempo_bpm = s.tempo_bpm) ∧
    (∀ ts, ∃ rs s1 s2,
      add_clicks (metro_select_single_click_handler s) ts = .ok (rs, s1) ∧
      add_clicks init ts = .ok (rs, s2) ∧ history s1 = history s2) := by
  obtain ⟨hwf, h0⟩ := run_PhaseInv es Phase.boot Phase.metro init s
    ⟨by decide, fun _ => rfl⟩ hwire hrun
  have hc : (metro_select_single_click_handler s).tempo_clicks = 0 := h0 (by decide)
  have hw : WF (metro_select_single_click_handler s) := WF_congr s _ rfl rfl hwf
  have hh := history_of_empty _ hc
  refine ⟨rfl, rfl, hc, hh, ?_, ?_⟩
  · intro seconds millis
    obtain ⟨s1, e1, _, _, r1⟩ := add_click_step _ ((seconds * 1000 + millis) % U32) hw
    rw [hh] at e1
    have hz : interval16 (push [] ((seconds * 1000 + millis) % U32)) = 0 := by
      simp [interval16, push, MAX_CLICKS]
    rw [hz] at e1
    have ht := tap_of_add_click_ok _ _ _ _ _ e1
    simp only [if_true] at ht
    exact ⟨s1, e1, ht, r1.2.2.2.1⟩
  · intro ts
    obtain ⟨s1, e1, _, h1, _⟩ := add_clicks_spec ts _ hw
    obtain ⟨s2, e2, _, h2, _⟩ := add_clicks_spec ts init (by decide)
    rw [hh] at e1 h1
    rw [history_of_empty init rfl] at e2 h2
    exact ⟨_, s1, s2, e1, e2, h1.trans h2.symm⟩

/-- C14, witness: a first tap session with the taps 0 ms and 500 ms, the return to the
metronome window, an up press; then the select handler opens the second session. -/
theorem C14_history_empty_on_entering_tap_mode_witness :
    phase_after Phase.boot [Event.start, Event.fire 0, Event.select, Event.tap 0 0,
      Event.tap 0 500, Event.exit_tap, Event.start, Event.up] = some Phase.metro ∧
    ∃ s, run init [Event.start, Event.fire 0, Event.select, Event.tap 0 0,
        Event.tap 0 500, Event.exit_tap, Event.start, Event.up] = .ok s ∧
      s.tempo_times = [0, 500, 0, 0, 0] ∧
      (step s Event.select = .ok (metro_select_single_click_handler s) ∧
      (metro_select_single_click_handler s).metro_running = 0 ∧
      (metro_select_single_click_handler s).tempo_clicks = 0 ∧
      history (metro_select_single_click_handler s) = [] ∧
      (∀ seconds millis, ∃ s1,
        add_click (metro_select_single_click_handler s) ((seconds * 1000 + millis) % U32) =
          .ok (0, s1) ∧
        tempo_single_click_handler (metro_select_single_click_handler s) seconds millis =
          .ok s1 ∧
        s1.tempo_bpm = s.tempo_bpm) ∧
      (∀ ts, ∃ rs s1 s2,
        add_clicks (metro_select_single_click_handler s) ts = .ok (rs, s1) ∧
        add_clicks init ts = .ok (rs, s2) ∧ history s1 = history s2)) :=
  ⟨by decide, _, rfl, by decide,
    C14_history_empty_on_entering_tap_mode
      [Event.start, Event.fire 0, Event.select, Event.tap 0 0, Event.tap 0 500,
        Event.exit_tap, Event.start, Event.up] _ (by decide) rfl⟩

end Metronome
